import Mathlib

/-!
# Verification of the HarmOni anime grouping/splitting pipeline

Shallow embedding of the core algorithms of the repository:
* `scripts/2-series-grouping.js` (shipped inside `pipeline.js` in this copy):
  relation normalization, directed relation-closure traversal, series grouping
  with an orphan/conflict policy, and edge-case collection;
* `scripts/3-advanced-series-split.js`: per-series splitting into a MAIN
  structural cluster set plus CHARACTER / ADAPTATION / SPIN_OFF / OTHER /
  PARENT soft clusters, with deterministic naming.

Ids are modelled as `String` (the scripts coerce ids with `.toString()`).
Host-provided functions of the JavaScript runtime (`JSON.parse`, `new Date`,
`Number`, `Date.now`/`Math.random`) are either modelled (`strNum`) or taken
as explicit parameters (`jp`, `dp`, `oracle`), since they are not part of the
repository's code.
-/

namespace Harmoni

/-- JavaScript truthiness for an optional string field: `undefined`/`null`
and the empty string are falsy. -/
def truthy : Option String → Bool
  | none => false
  | some s => s ≠ ""

/-- `a || b` on optional string fields (first truthy value, else `b`). -/
def jsOrS (a b : Option String) : Option String :=
  if truthy a then a else b

/-- `a || d` with a string default (as in `rel.relationType || "UNKNOWN"`). -/
def jsOrD (a : Option String) (d : String) : String :=
  match a with
  | some s => if s ≠ "" then s else d
  | none => d

/-- A relation element in object form.  Mirrors the fields the scripts read:
`targetAnimeId`, `id`, `relationType`, `type`, and `node.id` (collapsed to
`nodeId`; a `node` without a truthy `id` behaves like no `node` at all, since
the code only ever tests `rel.node && rel.node.id`). -/
structure RelObj where
  targetAnimeId : Option String := none
  id : Option String := none
  relationType : Option String := none
  type : Option String := none
  nodeId : Option String := none
deriving DecidableEq, Repr

/-- A raw relation element: a bare id (string or number, both coerced with
`.toString()` by the code) or an object. -/
inductive RawRel where
  | prim (s : String)
  | obj (o : RelObj)
deriving DecidableEq, Repr

/-- The raw `relations` field of an input record: absent (`undefined`/`null`),
a JSON-encoded string, a native array, or some other non-array value. -/
inductive RawRelField where
  | absent
  | str (s : String)
  | arr (xs : List RawRel)
  | nonArray
deriving DecidableEq, Repr

/-- Result of the host `JSON.parse` on a relations string: an exception, a
non-array value, or an array of relation elements. -/
inductive JsonParseResult where
  | throws
  | nonArrayValue
  | array (xs : List RawRel)
deriving DecidableEq, Repr

/-- An input record as consumed by the grouping stage. -/
structure RawRecord where
  id : String
  title : Option String := none
  title_romaji : Option String := none
  start_date : Option String := none
  relations : RawRelField := .absent
deriving DecidableEq, Repr

/-- A record after the in-place normalization pass of
`groupAnimeIntoSeries_internal` (its first `forEach`): the `relations` field
now always holds an array of relation objects.  `seriesId` is attached later
during grouping. -/
structure NormRecord where
  id : String
  title : Option String := none
  title_romaji : Option String := none
  start_date : Option String := none
  relations : List RelObj := []
  seriesId : Option String := none
deriving DecidableEq, Repr

/-- The element-wise relation normalizer (the `anime.relations.map(rel => ...)`
callback): bare ids become `UNKNOWN`-typed edges, `node`-wrapped ids are
unwrapped, objects with `id` but no `targetAnimeId` are standardized (spread
keeps the other fields), and everything else passes through unchanged. -/
def normalizeRel : RawRel → RelObj
  | .prim s => { targetAnimeId := some s, relationType := some "UNKNOWN" }
  | .obj o =>
    if truthy o.nodeId then
      { targetAnimeId := o.nodeId, relationType := some (jsOrD o.relationType "UNKNOWN") }
    else if truthy o.id ∧ ¬ truthy o.targetAnimeId then
      { o with targetAnimeId := o.id,
               relationType := some (jsOrD o.relationType (jsOrD o.type "UNKNOWN")) }
    else
      o

/-- Normalization of a whole raw `relations` field, including the
`JSON.parse` attempt on string values (`jp` models the host parser; both a
parse exception and a parsed non-array collapse to the empty list, as in the
code's `catch` branch and its `Array.isArray` guard).  An empty string is
falsy in JS, so it skips the parse and also collapses to `[]`. -/
def normalizeRelations (jp : String → JsonParseResult) : RawRelField → List RelObj
  | .absent => []
  | .nonArray => []
  | .arr xs => xs.map normalizeRel
  | .str s =>
    if s = "" then []
    else
      match jp s with
      | .array xs => xs.map normalizeRel
      | _ => []

/-- One record through the normalization pass. -/
def normalizeRecord (jp : String → JsonParseResult) (r : RawRecord) : NormRecord :=
  { id := r.id, title := r.title, title_romaji := r.title_romaji,
    start_date := r.start_date, relations := normalizeRelations jp r.relations }

/-- The whole normalization pass (`animeData.forEach` mutating each record in
place before grouping begins). -/
def normalizePass (jp : String → JsonParseResult) (records : List RawRecord) : List NormRecord :=
  records.map (normalizeRecord jp)

/-- `animeMap[anime.id] = anime` built over all records: later records with
the same id overwrite earlier ones. -/
def animeMapOf (l : List NormRecord) (id : String) : Option NormRecord :=
  l.reverse.find? (fun a => a.id == id)

theorem animeMapOf_id_eq {l : List NormRecord} {id : String} {a : NormRecord}
    (h : animeMapOf l id = some a) : a.id = id ∧ a ∈ l := by
  unfold animeMapOf at h
  have hmem := List.mem_of_find?_eq_some h
  have hp := List.find?_some h
  constructor
  · simpa using hp
  · simpa using hmem

theorem animeMapOf_isSome_of_mem {l : List NormRecord} {r : NormRecord}
    (h : r ∈ l) : (animeMapOf l r.id).isSome := by
  unfold animeMapOf
  exact List.find?_isSome.mpr ⟨r, List.mem_reverse.mpr h, by simp⟩

/-! ## Relation field readers used by the grouping stage -/

/-- `relation.targetAnimeId || relation.id` (a falsy result means the
relation is skipped by the caller). -/
def relTarget (rel : RelObj) : Option String :=
  if truthy rel.targetAnimeId then rel.targetAnimeId
  else if truthy rel.id then rel.id
  else none

/-- `relation.relationType || relation.type || "UNKNOWN"`. -/
def relTypeOf (rel : RelObj) : String :=
  jsOrD rel.relationType (jsOrD rel.type "UNKNOWN")

/-- String coercion of a possibly-undefined id inside a template literal
(JS renders `undefined` as the string `"undefined"`). -/
def optIdStr : Option String → String
  | some s => s
  | none => "undefined"

/-! ## `findAllRelatedIds`: the directed closure traversal

The JS function recursively follows each record's outgoing relations,
accumulating visited ids in a shared `processedIds` set, threading a
`relationChains` map used only to detect and log circular relations.
The recursion terminates because the visited set grows inside a finite id
universe; we model this with a fuel parameter, and the grouping entry point
supplies `stdFuel`, which is proven sufficient below. -/

/-- Traversal state: the insertion-ordered `processedIds` set, the
`relationChains` map (later `set`s shadow earlier ones), and the chains of
the circular-relation warnings emitted by `logger.warn` (the log side
channel; the code never copies them into the edge-case report). -/
structure TravState where
  processed : List String := []
  chains : List (String × List String) := []
  warns : List (List String) := []
deriving DecidableEq, Repr

/-- Association-list lookup where the most recent `set` (a prepend) wins. -/
def alook {β : Type} : List (String × β) → String → Option β
  | [], _ => none
  | (k', v) :: rest, k => if k' = k then some v else alook rest k

/-- The chain bookkeeping done for one resolved relation target: look up the
current chain of the source, emit a circular-relation warning when the target
already lies on that chain, and record the extended chain for the target. -/
def relStepPre (srcId : String) (st : TravState) (targetId : String) : TravState :=
  let currentChain := (alook st.chains srcId).getD []
  let st1 := if targetId ∈ currentChain
    then { st with warns := st.warns ++ [currentChain ++ [targetId]] }
    else st
  { st1 with chains := (targetId, currentChain ++ [srcId]) :: st1.chains }

theorem relStepPre_processed (srcId : String) (st : TravState) (targetId : String) :
    (relStepPre srcId st targetId).processed = st.processed := by
  unfold relStepPre
  dsimp only
  split <;> rfl

/-- Processing of one relation of the record `srcId` inside
`findAllRelatedIds`: resolve the target, do the chain/warning bookkeeping,
and recurse (`step`) when the target has not been visited. -/
def relStep (step : String → TravState → TravState) (srcId : String)
    (st : TravState) (rel : RelObj) : TravState :=
  match relTarget rel with
  | none => st
  | some targetId =>
    let st2 := relStepPre srcId st targetId
    if targetId ∈ st2.processed then st2 else step targetId st2

/-- The `anime.relations.forEach` loop, abstracted over the recursive call. -/
def travFold (step : String → TravState → TravState) (srcId : String) :
    List RelObj → TravState → TravState
  | [], st => st
  | rel :: rels, st => travFold step srcId rels (relStep step srcId st rel)

/-- `findAllRelatedIds`, fueled.  A call first checks the visited set, marks
its argument visited, then iterates the record's relations. -/
def travGo (m : String → Option NormRecord) : Nat → String → TravState → TravState
  | 0, _, st => st
  | fuel + 1, animeId, st =>
    if animeId ∈ st.processed then st
    else
      let st1 := { st with processed := st.processed ++ [animeId] }
      match m animeId with
      | none => st1
      | some anime => travFold (travGo m fuel) animeId anime.relations st1

/-- `findAllRelatedIds(animeId, animeMap, new Set(), new Map())`. -/
def findAllRelatedIds (m : String → Option NormRecord) (fuel : Nat)
    (animeId : String) : TravState :=
  travGo m fuel animeId {}

/-- All ids occurring anywhere in the normalized records: the record ids and
every resolvable relation target.  Traversal can only ever visit its start
id plus members of this universe. -/
def allIds (l : List NormRecord) : List String :=
  l.map (·.id) ++ l.flatMap (fun a => a.relations.filterMap relTarget)

/-- Fuel that is always sufficient for `travGo` (each nested call visits a
new id of `start :: allIds l`). -/
def stdFuel (l : List NormRecord) : Nat :=
  (allIds l).length + 2

/-- Targets of the record stored under an id (empty when there is none). -/
def targetsOf (m : String → Option NormRecord) (id : String) : List String :=
  match m id with
  | some a => a.relations.filterMap relTarget
  | none => []

/-- A directed relation edge from `b` to `c`: `b`'s record (in the map) has a
relation resolving to target `c`. -/
def DirEdge (m : String → Option NormRecord) (b c : String) : Prop :=
  c ∈ targetsOf m b

/-- Directed reachability along normalized relations (the relation actually
computed by the traversal; the spec instead described undirected
reachability). -/
inductive Reaches (m : String → Option NormRecord) : String → String → Prop
  | refl (a : String) : Reaches m a a
  | tail {a b c : String} : Reaches m a b → DirEdge m b c → Reaches m a c

theorem Reaches.head {m : String → Option NormRecord} {a b c : String}
    (hab : DirEdge m a b) (hbc : Reaches m b c) : Reaches m a c := by
  induction hbc with
  | refl => exact .tail (.refl a) hab
  | tail _ e ih => exact .tail ih e

/-! ### The visited set only grows, and its head is preserved -/

theorem relStep_mono {step : String → TravState → TravState}
    (hstep : ∀ t s, s.processed ⊆ (step t s).processed)
    (srcId : String) (st : TravState) (rel : RelObj) :
    st.processed ⊆ (relStep step srcId st rel).processed := by
  unfold relStep
  cases relTarget rel with
  | none => exact fun _ h => h
  | some targetId =>
    dsimp only
    rw [relStepPre_processed]
    split
    · rw [relStepPre_processed]; exact fun _ h => h
    · intro y hy
      exact hstep targetId _ (by rw [relStepPre_processed]; exact hy)

theorem travFold_mono {step : String → TravState → TravState}
    (hstep : ∀ t s, s.processed ⊆ (step t s).processed)
    (srcId : String) (rels : List RelObj) (st : TravState) :
    st.processed ⊆ (travFold step srcId rels st).processed := by
  induction rels generalizing st with
  | nil => exact fun _ h => h
  | cons rel rels ih =>
    intro y hy
    exact ih (relStep step srcId st rel) (relStep_mono hstep srcId st rel hy)

theorem travGo_mono (m : String → Option NormRecord) :
    ∀ (fuel : Nat) (x : String) (st : TravState),
      st.processed ⊆ (travGo m fuel x st).processed := by
  intro fuel
  induction fuel with
  | zero => intro x st _ h; exact h
  | succ fuel ih =>
    intro x st y hy
    unfold travGo
    split
    · exact hy
    · cases hm : m x with
      | none => simp only [hm]; exact List.mem_append_left _ hy
      | some anime =>
        simp only [hm]
        exact travFold_mono (fun t s => ih t s) x anime.relations _
          (List.mem_append_left _ hy)

theorem relStep_head {step : String → TravState → TravState}
    (hstep : ∀ t s h, s.processed.head? = some h → (step t s).processed.head? = some h)
    (srcId : String) (st : TravState) (rel : RelObj) (h : String)
    (hh : st.processed.head? = some h) :
    (relStep step srcId st rel).processed.head? = some h := by
  unfold relStep
  cases relTarget rel with
  | none => exact hh
  | some targetId =>
    dsimp only
    rw [relStepPre_processed]
    split
    · rw [relStepPre_processed]; exact hh
    · exact hstep targetId _ h (by rw [relStepPre_processed]; exact hh)

theorem travFold_head {step : String → TravState → TravState}
    (hstep : ∀ t s h, s.processed.head? = some h → (step t s).processed.head? = some h)
    (srcId : String) (rels : List RelObj) (st : TravState) (h : String)
    (hh : st.processed.head? = some h) :
    (travFold step srcId rels st).processed.head? = some h := by
  induction rels generalizing st with
  | nil => exact hh
  | cons rel rels ih =>
    exact ih (relStep step srcId st rel) (relStep_head hstep srcId st rel h hh)

theorem travGo_head (m : String → Option NormRecord) :
    ∀ (fuel : Nat) (x : String) (st : TravState) (h : String),
      st.processed.head? = some h → (travGo m fuel x st).processed.head? = some h := by
  intro fuel
  induction fuel with
  | zero => intro x st h hh; exact hh
  | succ fuel ih =>
    intro x st h hh
    unfold travGo
    split
    · exact hh
    · have hcons : ∃ t, st.processed = h :: t := by
        cases hp : st.processed with
        | nil => rw [hp] at hh; simp at hh
        | cons c t => rw [hp] at hh; simp at hh; exact ⟨t, by rw [hh]⟩
      obtain ⟨t, ht⟩ := hcons
      have happ : (st.processed ++ [x]).head? = some h := by
        rw [ht]; rfl
      cases hm : m x with
      | none => simp only [hm]; exact happ
      | some anime =>
        simp only [hm]
        exact travFold_head (fun t s hd => ih t s hd) x anime.relations _ h happ

/-- The start id is the first element of the computed closure. -/
theorem findAllRelatedIds_head (m : String → Option NormRecord) (fuel : Nat)
    (x : String) (hf : 1 ≤ fuel) :
    (findAllRelatedIds m fuel x).processed.head? = some x := by
  unfold findAllRelatedIds
  cases fuel with
  | zero => omega
  | succ fuel =>
    unfold travGo
    have hnotmem : x ∉ (({} : TravState)).processed := by
      intro h; exact absurd h (by simp [TravState.processed])
    rw [if_neg hnotmem]
    cases hm : m x with
    | none => rfl
    | some anime =>
      exact travFold_head (fun t s hd => travGo_head m fuel t s hd) x anime.relations _ x rfl

/-! ### Soundness: everything visited is reachable via directed edges -/

theorem relStep_sound {m : String → Option NormRecord}
    {step : String → TravState → TravState}
    (hstep : ∀ t s y, y ∈ (step t s).processed → y ∈ s.processed ∨ Reaches m t y)
    {src : String} {st : TravState} {rel : RelObj}
    (hrel : ∀ t, relTarget rel = some t → DirEdge m src t) :
    ∀ y, y ∈ (relStep step src st rel).processed →
      y ∈ st.processed ∨ Reaches m src y := by
  intro y hy
  unfold relStep at hy
  cases hrt : relTarget rel with
  | none => rw [hrt] at hy; exact Or.inl hy
  | some targetId =>
    rw [hrt] at hy
    dsimp only at hy
    rw [relStepPre_processed] at hy
    split at hy
    · rw [relStepPre_processed] at hy; exact Or.inl hy
    · rcases hstep targetId _ y hy with h | h
      · rw [relStepPre_processed] at h; exact Or.inl h
      · exact Or.inr (Reaches.head (hrel targetId hrt) h)

theorem travFold_sound {m : String → Option NormRecord}
    {step : String → TravState → TravState}
    (hstep : ∀ t s y, y ∈ (step t s).processed → y ∈ s.processed ∨ Reaches m t y)
    {src : String} {rels : List RelObj}
    (hrels : ∀ rel ∈ rels, ∀ t, relTarget rel = some t → DirEdge m src t) :
    ∀ (st : TravState) (y : String), y ∈ (travFold step src rels st).processed →
      y ∈ st.processed ∨ Reaches m src y := by
  induction rels with
  | nil => intro st y hy; exact Or.inl hy
  | cons rel rels ih =>
    intro st y hy
    rcases ih (fun r hr => hrels r (List.mem_cons_of_mem _ hr)) _ y hy with h | h
    · exact relStep_sound hstep (hrels rel (List.mem_cons_self _ _)) y h
    · exact Or.inr h

theorem travGo_sound (m : String → Option NormRecord) :
    ∀ (fuel : Nat) (x : String) (st : TravState) (y : String),
      y ∈ (travGo m fuel x st).processed → y ∈ st.processed ∨ Reaches m x y := by
  intro fuel
  induction fuel with
  | zero => intro x st y hy; exact Or.inl hy
  | succ fuel ih =>
    intro x st y hy
    unfold travGo at hy
    split at hy
    · exact Or.inl hy
    · cases hm : m x with
      | none =>
        rw [hm] at hy
        rcases List.mem_append.mp hy with h | h
        · exact Or.inl h
        · exact Or.inr (by simp at h; rw [h]; exact .refl x)
      | some anime =>
        rw [hm] at hy
        have hrels : ∀ rel ∈ anime.relations, ∀ t, relTarget rel = some t →
            DirEdge m x t := by
          intro rel hr t ht
          unfold DirEdge targetsOf
          rw [hm]
          exact List.mem_filterMap.mpr ⟨rel, hr, ht⟩
        rcases travFold_sound (fun t s z => ih t s z) hrels _ y hy with h | h
        · rcases List.mem_append.mp h with h' | h'
          · exact Or.inl h'
          · exact Or.inr (by simp at h'; rw [h']; exact .refl x)
        · exact Or.inr h

/-! ### Fuel sufficiency: counting ids of the universe not yet visited -/

/-- Number of ids of the universe `U` not yet in the visited list `P`. -/
def missing (U P : List String) : Nat :=
  U.countP (fun u => decide (u ∉ P))

theorem missing_cons (u : String) (U P : List String) :
    missing (u :: U) P = missing U P + (if u ∈ P then 0 else 1) := by
  unfold missing
  rw [List.countP_cons]
  by_cases hp : u ∈ P <;> simp [hp]

theorem missing_antitone {U P Q : List String} (h : P ⊆ Q) :
    missing U Q ≤ missing U P := by
  induction U with
  | nil => exact Nat.le_refl _
  | cons u U ih =>
    rw [missing_cons, missing_cons]
    have hterm : (if u ∈ Q then 0 else 1) ≤ (if u ∈ P then 0 else 1) := by
      by_cases hq : u ∈ Q
      · simp [hq]
      · have hp : u ∉ P := fun hmem => hq (h hmem)
        simp [hq, hp]
    omega

theorem one_le_missing {U P : List String} {x : String}
    (hxU : x ∈ U) (hxP : x ∉ P) : 1 ≤ missing U P := by
  induction U with
  | nil => simp at hxU
  | cons u U ih =>
    rw [missing_cons]
    rcases List.mem_cons.mp hxU with h | h
    · subst h; simp [hxP]
    · have := ih h; omega

theorem missing_lt_append {U P : List String} {x : String}
    (hxU : x ∈ U) (hxP : x ∉ P) :
    missing U (P ++ [x]) < missing U P := by
  have hsub : P ⊆ P ++ [x] := fun y hy => List.mem_append_left _ hy
  induction U with
  | nil => simp at hxU
  | cons u U ih =>
    rw [missing_cons, missing_cons]
    have hmono : missing U (P ++ [x]) ≤ missing U P := missing_antitone hsub
    by_cases hux : u = x
    · subst hux
      have h1 : u ∈ P ++ [u] := List.mem_append_right _ (by simp)
      rw [if_pos h1, if_neg hxP]
      omega
    · have hx' : x ∈ U := by
        rcases List.mem_cons.mp hxU with h | h
        · exact absurd h.symm hux
        · exact h
      have hiff : u ∈ P ++ [x] ↔ u ∈ P := by
        constructor
        · intro h
          rcases List.mem_append.mp h with h' | h'
          · exact h'
          · simp at h'; exact absurd h' hux
        · exact fun h => List.mem_append_left _ h
      have := ih hx'
      by_cases hp : u ∈ P
      · rw [if_pos (hiff.mpr hp), if_pos hp]; omega
      · have hp2 : u ∉ P ++ [x] := fun h => hp (hiff.mp h)
        rw [if_neg hp2, if_neg hp]
        omega

/-- Fold-level completeness invariant: assuming enough fuel for nested calls
(`ihgo` is the fuel induction hypothesis) the fold preserves the visited set,
visits the target of every processed relation, and keeps every id visited
after the base state fully expanded (its targets visited), except possibly
the source `x` whose expansion is in progress. -/
theorem travFold_exp (m : String → Option NormRecord) (U : List String)
    (f n' : Nat)
    (ihgo : ∀ (x : String) (st : TravState), missing U st.processed ≤ n' → x ∈ U →
      x ∈ (travGo m f x st).processed ∧
      (∀ b, b ∈ (travGo m f x st).processed → b ∉ st.processed →
        ∀ t ∈ targetsOf m b, t ∈ (travGo m f x st).processed))
    (x : String) (base : List String) :
    ∀ (rels : List RelObj) (stC : TravState),
      (∀ rel ∈ rels, ∀ t, relTarget rel = some t → t ∈ U) →
      missing U stC.processed ≤ n' →
      (∀ b, b ∈ stC.processed → b ∉ base → b ≠ x →
        ∀ t ∈ targetsOf m b, t ∈ stC.processed) →
      stC.processed ⊆ (travFold (travGo m f) x rels stC).processed ∧
      (∀ rel ∈ rels, ∀ t, relTarget rel = some t →
        t ∈ (travFold (travGo m f) x rels stC).processed) ∧
      (∀ b, b ∈ (travFold (travGo m f) x rels stC).processed → b ∉ base → b ≠ x →
        ∀ t ∈ targetsOf m b, t ∈ (travFold (travGo m f) x rels stC).processed) := by
  intro rels
  induction rels with
  | nil =>
    intro stC _ _ hsat
    exact ⟨fun _ h => h, by intro rel h; simp at h, hsat⟩
  | cons rel rels ih =>
    intro stC hU hmiss hsat
    cases hrt : relTarget rel with
    | none =>
      have hstep : relStep (travGo m f) x stC rel = stC := by
        unfold relStep; rw [hrt]
      rw [travFold, hstep]
      obtain ⟨c1, c2, c3⟩ := ih stC
        (fun r hr => hU r (List.mem_cons_of_mem _ hr)) hmiss hsat
      refine ⟨c1, ?_, c3⟩
      intro r hr t ht
      rcases List.mem_cons.mp hr with h | h
      · subst h; rw [hrt] at ht; exact absurd ht (by simp)
      · exact c2 r h t ht
    | some targetId =>
      have htU : targetId ∈ U := hU rel (List.mem_cons_self _ _) targetId hrt
      rw [travFold]
      unfold relStep
      rw [hrt]
      dsimp only
      rw [relStepPre_processed]
      by_cases hmem : targetId ∈ stC.processed
      · rw [if_pos hmem]
        have hPre : (relStepPre x stC targetId).processed = stC.processed :=
          relStepPre_processed x stC targetId
        obtain ⟨c1, c2, c3⟩ := ih (relStepPre x stC targetId)
          (fun r hr => hU r (List.mem_cons_of_mem _ hr))
          (by rw [hPre]; exact hmiss)
          (by rw [hPre]; exact hsat)
        refine ⟨by rw [← hPre]; exact c1, ?_, c3⟩
        intro r hr t ht
        rcases List.mem_cons.mp hr with h | h
        · subst h; rw [hrt] at ht
          have heq : t = targetId := (Option.some.inj ht).symm
          subst heq
          exact c1 (by rw [hPre]; exact hmem)
        · exact c2 r h t ht
      · rw [if_neg hmem]
        set stP := relStepPre x stC targetId with hstP
        have hPre : stP.processed = stC.processed :=
          relStepPre_processed x stC targetId
        obtain ⟨g1, g2⟩ := ihgo targetId stP (by rw [hPre]; exact hmiss) htU
        set stD := travGo m f targetId stP with hstD
        have hmonoD : stP.processed ⊆ stD.processed := travGo_mono m f targetId stP
        have hmissD : missing U stD.processed ≤ n' :=
          Nat.le_trans (missing_antitone hmonoD) (by rw [hPre]; exact hmiss)
        have hsatD : ∀ b, b ∈ stD.processed → b ∉ base → b ≠ x →
            ∀ t ∈ targetsOf m b, t ∈ stD.processed := by
          intro b hb hb2 hb3 t ht
          by_cases hbP : b ∈ stP.processed
          · exact hmonoD (by rw [hPre] at hbP ⊢; exact hsat b hbP hb2 hb3 t ht)
          · exact g2 b hb hbP t ht
        obtain ⟨c1, c2, c3⟩ := ih stD
          (fun r hr => hU r (List.mem_cons_of_mem _ hr)) hmissD hsatD
        refine ⟨?_, ?_, c3⟩
        · intro y hy
          exact c1 (hmonoD (by rw [hPre]; exact hy))
        · intro r hr t ht
          rcases List.mem_cons.mp hr with h | h
          · subst h; rw [hrt] at ht
            have heq : t = targetId := (Option.some.inj ht).symm
            subst heq
            exact c1 g1
          · exact c2 r h t ht

/-- Fuel-indexed completeness: with enough fuel relative to the unvisited
part of a closed universe `U`, `travGo` visits its argument and leaves every
newly visited id fully expanded. -/
theorem travGo_exp (m : String → Option NormRecord) (U : List String)
    (HU : ∀ id a, m id = some a → ∀ t ∈ a.relations.filterMap relTarget, t ∈ U) :
    ∀ (fuel n : Nat) (x : String) (st : TravState),
      missing U st.processed ≤ n → n < fuel → x ∈ U →
      x ∈ (travGo m fuel x st).processed ∧
      (∀ b, b ∈ (travGo m fuel x st).processed → b ∉ st.processed →
        ∀ t ∈ targetsOf m b, t ∈ (travGo m fuel x st).processed) := by
  intro fuel
  induction fuel with
  | zero => intro n x st _ hn _; omega
  | succ f ih =>
    intro n x st hmiss hn hxU
    by_cases hxmem : x ∈ st.processed
    · rw [travGo, if_pos hxmem]
      exact ⟨hxmem, fun b hb hb2 => absurd hb hb2⟩
    · rw [travGo, if_neg hxmem]
      have h1 : 1 ≤ missing U st.processed := one_le_missing hxU hxmem
      have hmiss1 : missing U (st.processed ++ [x]) ≤ n - 1 := by
        have := missing_lt_append hxU hxmem
        omega
      have hn1 : n - 1 < f := by omega
      cases hm : m x with
      | none =>
        refine ⟨List.mem_append_right _ (by simp), ?_⟩
        intro b hb hb2 t ht
        have hbx : b = x := by
          rcases List.mem_append.mp hb with h | h
          · exact absurd h hb2
          · simpa using h
        subst hbx
        unfold targetsOf at ht
        rw [hm] at ht
        simp at ht
      | some anime =>
        have hU : ∀ rel ∈ anime.relations, ∀ t, relTarget rel = some t → t ∈ U := by
          intro rel hr t ht
          exact HU x anime hm t (List.mem_filterMap.mpr ⟨rel, hr, ht⟩)
        set st1 : TravState := { st with processed := st.processed ++ [x] } with hst1
        have hsat1 : ∀ b, b ∈ st1.processed → b ∉ st.processed → b ≠ x →
            ∀ t ∈ targetsOf m b, t ∈ st1.processed := by
          intro b hb hb2 hb3
          rcases List.mem_append.mp hb with h | h
          · exact absurd h hb2
          · exact absurd (by simpa using h) hb3
        have ihgo := fun (y : String) (s : TravState) hm' hy =>
          ih (n - 1) y s hm' hn1 hy
        obtain ⟨c1, c2, c3⟩ := travFold_exp m U f (n - 1) ihgo x
          st.processed anime.relations st1 hU hmiss1 hsat1
        refine ⟨c1 (List.mem_append_right _ (by simp)), ?_⟩
        intro b hb hb2 t ht
        by_cases hbx : b = x
        · subst hbx
          unfold targetsOf at ht
          rw [hm] at ht
          obtain ⟨rel, hrel, hrt⟩ := List.mem_filterMap.mp ht
          exact c2 rel hrel t hrt
        · exact c3 b hb hb2 hbx t ht

/-! ### The closure computed by the traversal is exactly directed reachability -/

theorem findAllRelatedIds_mem_iff (nrecords : List NormRecord) (start y : String) :
    y ∈ (findAllRelatedIds (animeMapOf nrecords) (stdFuel nrecords) start).processed ↔
    Reaches (animeMapOf nrecords) start y := by
  set m := animeMapOf nrecords with hm
  constructor
  · intro hy
    rcases travGo_sound m (stdFuel nrecords) start {} y hy with h | h
    · exact absurd h (by simp [TravState.processed])
    · exact h
  · intro hy
    set U : List String := start :: allIds nrecords with hU
    have HU : ∀ id a, m id = some a → ∀ t ∈ a.relations.filterMap relTarget, t ∈ U := by
      intro id a ha t ht
      obtain ⟨_, hmem⟩ := animeMapOf_id_eq ha
      refine List.mem_cons_of_mem _ (List.mem_append_right _ ?_)
      exact List.mem_flatMap.mpr ⟨a, hmem, ht⟩
    have hmiss : missing U (({} : TravState)).processed ≤ U.length := by
      unfold missing
      exact List.countP_le_length _
    have hlen : U.length < stdFuel nrecords := by
      rw [hU]
      unfold stdFuel
      simp
    obtain ⟨hpres, hsat⟩ := travGo_exp m U HU (stdFuel nrecords) U.length start {}
      hmiss hlen (List.mem_cons_self _ _)
    induction hy with
    | refl => exact hpres
    | tail _ e ih =>
      refine hsat _ ih (by simp [TravState.processed]) _ ?_
      exact e

/-- Modelled from the spec: "undirected reachability — an edge is traversed
in both directions".  This is the closure relation the spec describes; the
code computes `Reaches` (directed) instead. -/
inductive UndirReaches (m : String → Option NormRecord) : String → String → Prop
  | refl (a : String) : UndirReaches m a a
  | tail {a b c : String} : UndirReaches m a b → (DirEdge m b c ∨ DirEdge m c b) →
      UndirReaches m a c

/-- Record `1` points at `2`; record `3` points at `1` with no edge back. -/
def c1recs : List NormRecord :=
  [ { id := "1", relations := [{ targetAnimeId := some "2" }] },
    { id := "2" },
    { id := "3", relations := [{ targetAnimeId := some "1" }] } ]

/-- C1, counterexample: record `"3"` is connected to record `"1"` in the
undirected relation graph (it points at `"1"`), yet the closure the code
computes from `"1"` does not contain `"3"` — the traversal follows outgoing
edges only, so the claimed undirected reachability is refuted. -/
theorem c1_counterexample :
    UndirReaches (animeMapOf c1recs) "1" "3" ∧
    "3" ∉ (findAllRelatedIds (animeMapOf c1recs) (stdFuel c1recs) "1").processed := by
  constructor
  · refine .tail (.refl "1") (Or.inr ?_)
    unfold DirEdge
    decide
  · decide

/-- C1 (amended): for every record map and start id, the closure computed by
`findAllRelatedIds` (with the fuel the grouping stage supplies) is exactly
the set of ids reachable from the start via *directed* relation edges —
relations are followed from source to target only, not in both directions. -/
theorem c1_closure_is_directed_reachability (nrecords : List NormRecord)
    (start y : String) :
    y ∈ (findAllRelatedIds (animeMapOf nrecords) (stdFuel nrecords) start).processed ↔
    Reaches (animeMapOf nrecords) start y :=
  findAllRelatedIds_mem_iff nrecords start y

/-! ## Series grouping (`groupAnimeIntoSeries_internal`) -/

/-- One entry of the series' `animeDetails` map: `{id, title}` with the
`title_romaji || title || "Unknown Title"` fallback chain. -/
structure AnimeDetail where
  id : String
  title : String
deriving DecidableEq, Repr

/-- One entry of a series' internal relation list (`direction` is the
constant `"forward"` in the code). -/
structure SeriesRelation where
  sourceAnimeId : String
  targetAnimeId : Option String
  relationType : String
  direction : String
deriving DecidableEq, Repr

/-- A finalized series group. `animeDetails` and `relationTypes` are
insertion-ordered maps (JS object property order). -/
structure SeriesGroup where
  seriesId : String
  seriesName : String
  animeIds : List String
  animeDetails : List (String × AnimeDetail)
  relations : List SeriesRelation
  relationTypes : List (String × List String)
deriving DecidableEq, Repr

/-- An orphaned-record edge-case entry. -/
structure OrphanEntry where
  animeId : String
  title : Option String
  reason : String
deriving DecidableEq, Repr

/-- A `{seriesId, seriesName}` reference inside a multi-membership entry. -/
structure SeriesRef where
  seriesId : String
  seriesName : String
deriving DecidableEq, Repr

/-- A multi-membership (conflict) edge-case entry. -/
structure MultiEntry where
  animeId : String
  title : String
  foundInSeries : List SeriesRef
deriving DecidableEq, Repr

/-- The edge-case report.  `circularRelations` is typed as chain traces, but
the code never appends to it (circular relations are only logged). -/
structure EdgeCases where
  animeInMultipleSeries : List MultiEntry
  orphanedAnime : List OrphanEntry
  circularRelations : List (List String)
deriving DecidableEq, Repr

/-- Mutable state of the grouping loop.  `warnLog` models the `logger.warn`
side channel (the circular-relation chains printed during traversal). -/
structure GroupState where
  series : List SeriesGroup := []
  processedIds : List String := []
  seriesIds : List String := []
  animeToSeries : List (String × String) := []
  orphans : List OrphanEntry := []
  multis : List MultiEntry := []
  circs : List (List String) := []
  warnLog : List (List String) := []
deriving DecidableEq, Repr

/-- `Set.add`: append if not already present. -/
def addId (l : List String) (x : String) : List String :=
  if x ∈ l then l else l ++ [x]

/-- Insertion-ordered map update (`obj[key] = value` JS semantics:
overwrite keeps the key's position, otherwise append). -/
def adSet (l : List (String × AnimeDetail)) (k : String) (v : AnimeDetail) :
    List (String × AnimeDetail) :=
  if (l.find? (fun p => p.1 == k)).isSome
  then l.map (fun p => if p.1 == k then (k, v) else p)
  else l ++ [(k, v)]

/-- `relationTypes[type] = relationTypes[type] or []`, then push `key` if not
already present. -/
def rtAdd (rts : List (String × List String)) (ty key : String) :
    List (String × List String) :=
  if (rts.find? (fun p => p.1 == ty)).isSome
  then rts.map (fun p => if p.1 == ty then (p.1, if key ∈ p.2 then p.2 else p.2 ++ [key]) else p)
  else rts ++ [(ty, [key])]

/-! ### `generateSeriesId` -/

/-- ASCII lower-casing (`String.toLowerCase`; the data uses ASCII titles). -/
def jsToLower (s : String) : String :=
  String.mk (s.data.map Char.toLower)

/-- `replace(/[^a-z0-9]/g, "_")` applied character-wise after lower-casing. -/
def slugReplace (l : List Char) : List Char :=
  l.map (fun c => if ('a' ≤ c ∧ c ≤ 'z') ∨ ('0' ≤ c ∧ c ≤ '9') then c else '_')

/-- `replace(/_+/g, "_")`: collapse runs of underscores. -/
def collapseU (prevU : Bool) : List Char → List Char
  | [] => []
  | c :: rest =>
    if c = '_' then
      (if prevU then collapseU true rest else '_' :: collapseU true rest)
    else c :: collapseU false rest

/-- `replace(/^_|_$/g, "")`: strip one leading and one trailing underscore. -/
def stripEnds (l : List Char) : List Char :=
  let l1 := match l with
    | '_' :: rest => rest
    | _ => l
  if l1.getLast? = some '_' then l1.dropLast else l1

/-- Slug of a title: lower-case, non-alphanumerics to `_`, collapse runs,
strip the ends, truncate to 30 characters. -/
def slugify (title : String) : String :=
  String.mk ((stripEnds (collapseU false (slugReplace (jsToLower title).data))).take 30)

/-- The collision loop of `generateSeriesId`: starting from `slug`, append
`_1`, `_2`, … until the id is not taken.  Fueled by `existing.length + 1`
(enough candidates are always available). -/
def freshIdGo (slug : String) (existing : List String) : Nat → Nat → String
  | 0, n => slug ++ "_" ++ toString n
  | fuel + 1, n =>
    let cand := slug ++ "_" ++ toString n
    if cand ∈ existing then freshIdGo slug existing fuel (n + 1) else cand

/-- Disambiguate `slug` against already-used series ids. -/
def freshId (slug : String) (existing : List String) : String :=
  if slug ∈ existing then freshIdGo slug existing (existing.length + 1) 1 else slug

/-- `generateSeriesId(animeDetails, existingIds)`.  When the first anime is
missing or has a falsy title the code returns
``series_${Date.now()}_${Math.floor(Math.random() * 1000)}``; that host
nondeterminism is passed in as `fresh`. -/
def generateSeriesId (fresh : String) (animeDetails : List NormRecord)
    (existing : List String) : String :=
  match animeDetails.head? with
  | none => fresh
  | some firstAnime =>
    if truthy firstAnime.title
    then freshId (slugify (firstAnime.title.getD "")) existing
    else fresh

/-! ### The per-record grouping step -/

/-- `title_romaji || title || "Unknown Title"`. -/
def detailTitle (a : NormRecord) : String :=
  jsOrD a.title_romaji (jsOrD a.title "Unknown Title")

/-- Appending one relation of a member to the group's relation list and
relation-type index (the inner `anime.relations.forEach`). -/
def memberRelStep (aid : String) (g : SeriesGroup) (rel : RelObj) : SeriesGroup :=
  let targetId := relTarget rel
  let rty := relTypeOf rel
  let g1 := { g with relations := g.relations ++
    [({ sourceAnimeId := aid, targetAnimeId := targetId, relationType := rty,
        direction := "forward" } : SeriesRelation)] }
  let key := aid ++ "->" ++ optIdStr targetId
  { g1 with relationTypes := rtAdd g1.relationTypes rty key }

/-- The body of the `animeDetails.forEach` loop of the finalize branch: add
the member's detail entry, register it in `animeToSeries`, and append all of
its relations to the group's relation list and relation-type index. -/
def memberStep (sid : String) (p : SeriesGroup × List (String × String))
    (a : NormRecord) : SeriesGroup × List (String × String) :=
  let g := { p.1 with animeDetails := adSet p.1.animeDetails a.id ⟨a.id, detailTitle a⟩ }
  let a2s := (a.id, sid) :: p.2
  (a.relations.foldl (memberRelStep a.id) g, a2s)

/-- One multi-membership edge-case entry for a conflicting closure member:
the record's title (or `"Unknown"`), a reference to its existing series, and
the placeholder proposed-new-series reference. -/
def mkMulti (m : String → Option NormRecord) (a2s : List (String × String))
    (id : String) : MultiEntry :=
  { animeId := id
  , title := match m id with
      | some a => jsOrD a.title "Unknown"
      | none => "Unknown"
  , foundInSeries :=
      [ ⟨(alook a2s id).getD "", (alook a2s id).getD ""⟩
      , ⟨"proposed_new_series", "Proposed New Series"⟩ ] }

/-- Processing of one record of the input sequence (the body of the
`animeData.forEach` grouping loop): skip if visited; orphan out records with
no relations or a singleton closure; veto the whole closure on any conflict
with a previously finalized group; otherwise finalize a new series group. -/
def processRecord (m : String → Option NormRecord) (fuel : Nat)
    (oracle : Nat → String) (st : GroupState) (anime : NormRecord) : GroupState :=
  if anime.id ∈ st.processedIds then st
  else if anime.relations.length = 0 then
    { st with orphans := st.orphans ++ [⟨anime.id, anime.title, "No relations found"⟩]
            , processedIds := addId st.processedIds anime.id }
  else
    let trav := findAllRelatedIds m fuel anime.id
    let relatedIds := trav.processed
    let st := { st with warnLog := st.warnLog ++ trav.warns }
    if relatedIds.length = 1 then
      { st with orphans := st.orphans ++ [⟨anime.id, anime.title, "No reciprocal relations found"⟩]
              , processedIds := addId st.processedIds anime.id }
    else
      let conflicting := relatedIds.filter (fun id => (alook st.animeToSeries id).isSome)
      if conflicting ≠ [] then
        { st with multis := st.multis ++ conflicting.map (mkMulti m st.animeToSeries)
                , processedIds := relatedIds.foldl addId st.processedIds }
      else
        let animeDetails := relatedIds.filterMap m
        let seriesId := generateSeriesId (oracle st.series.length) animeDetails st.seriesIds
        let seriesName := match animeDetails.head? with
          | some a => if truthy a.title then a.title.getD ""
                      else "Series " ++ toString (st.series.length + 1)
          | none => "Series " ++ toString (st.series.length + 1)
        let g0 : SeriesGroup :=
          { seriesId := seriesId, seriesName := seriesName, animeIds := relatedIds
          , animeDetails := [], relations := [], relationTypes := [] }
        let built := animeDetails.foldl (memberStep seriesId) (g0, st.animeToSeries)
        { st with series := st.series ++ [built.1]
                , seriesIds := addId st.seriesIds seriesId
                , animeToSeries := built.2
                , processedIds := relatedIds.foldl addId st.processedIds }

/-- The result of the grouping stage.  `warnLog` models the log side channel
and `recordsAfterRun` the in-place state of the caller's records after the
run (normalized relations, `seriesId` attached to grouped members). -/
structure GroupResult where
  series : List SeriesGroup
  edgeCases : EdgeCases
  warnLog : List (List String)
  recordsAfterRun : List NormRecord
deriving DecidableEq, Repr

/-- `groupAnimeIntoSeries_internal(animeData)`: normalize all records in
place, build the id map, then run the grouping loop. -/
def groupAnimeIntoSeries_internal (jp : String → JsonParseResult)
    (oracle : Nat → String) (records : List RawRecord) : GroupResult :=
  let normRecords := normalizePass jp records
  let m := animeMapOf normRecords
  let fuel := stdFuel normRecords
  let final := normRecords.foldl (processRecord m fuel oracle) {}
  { series := final.series
  , edgeCases :=
      { animeInMultipleSeries := final.multis
      , orphanedAnime := final.orphans
      , circularRelations := final.circs }
  , warnLog := final.warnLog
  , recordsAfterRun := normRecords.map (fun r =>
      match alook final.animeToSeries r.id with
      | some sid => { r with seriesId := some sid }
      | none => r) }

/-! ## Advanced series split (`3-advanced-series-split.js`) -/

/-- A relation of a series document as read by the splitter.  A grouped
relation whose target was `undefined` is rendered as the string
`"undefined"`, matching the JS string coercion in every key the splitter
builds (genuine anime ids never spell `"undefined"`). -/
structure SplitRelation where
  sourceAnimeId : String
  targetAnimeId : String
  relationType : String
deriving DecidableEq, Repr

/-- A series document as read by the splitter (only `seriesId` and
`relations` are consumed by `processSeriesData`). -/
structure SplitSeries where
  seriesId : String
  relations : List SplitRelation
deriving DecidableEq, Repr

/-- Bridge from a grouper-produced series to the splitter's input (the
on-disk JSON roundtrip drops `undefined` target fields; string contexts
render them as `"undefined"`). -/
def toSplitSeries (g : SeriesGroup) : SplitSeries :=
  { seriesId := g.seriesId
  , relations := g.relations.map (fun r =>
      { sourceAnimeId := r.sourceAnimeId
      , targetAnimeId := optIdStr r.targetAnimeId
      , relationType := r.relationType }) }

/-- The splitter's `animeMap` is built from the *raw* anime data file
(`anilist_anime_data_complete.json`), later records overwriting earlier. -/
def rawMapOf (l : List RawRecord) (id : String) : Option RawRecord :=
  l.reverse.find? (fun a => a.id == id)

/-! ### The `Graph` class -/

/-- `Graph.adjacencyList`: an insertion-ordered map from vertex to its
neighbor array. -/
abbrev SplitGraph := List (String × List String)

/-- `addVertex`. -/
def addVertex (g : SplitGraph) (v : String) : SplitGraph :=
  if (g.find? (fun p => p.1 == v)).isSome then g else g ++ [(v, [])]

/-- Push `t` onto `v`'s neighbor array. -/
def adjPush (g : SplitGraph) (v t : String) : SplitGraph :=
  g.map (fun p => if p.1 == v then (p.1, p.2 ++ [t]) else p)

/-- `addEdge` (undirected: both directions pushed). -/
def addEdge (g : SplitGraph) (s t : String) : SplitGraph :=
  adjPush (adjPush (addVertex (addVertex g s) t) s t) t s

/-- Neighbors of a vertex (`adjacencyList.get(vertex) || []`). -/
def adjOf (g : SplitGraph) (v : String) : List String :=
  ((g.find? (fun p => p.1 == v)).map (·.2)).getD []

/-- The stack-based `dfs` loop.  The JS stack pushes/pops at the array end;
the model keeps the top at the list head (neighbors are therefore pushed in
reverse).  Each iteration pops exactly one entry, so the supplied fuel bound
covers every execution. -/
def dfsLoop (g : SplitGraph) : Nat → List String → List String → List String →
    List String × List String
  | 0, _, vis, grp => (vis, grp)
  | _ + 1, [], vis, grp => (vis, grp)
  | fuel + 1, v :: stack, vis, grp =>
    if v ∈ vis then dfsLoop g fuel stack vis grp
    else
      let vis := vis ++ [v]
      let grp := grp ++ [v]
      let toPush := (adjOf g v).filter (fun n => decide (n ∉ vis))
      dfsLoop g fuel (toPush.reverse ++ stack) vis grp

/-- Total number of adjacency entries: an upper bound on stack pushes. -/
def totalAdj (g : SplitGraph) : Nat :=
  (g.map (fun p => p.2.length)).sum

/-- `dfs(start, visited)`: returns the updated visited set and the vertex
group found. -/
def dfsRun (g : SplitGraph) (start : String) (vis : List String) :
    List String × List String :=
  dfsLoop g (totalAdj g + g.length + 2) [start] vis []

/-- `findConnectedGroups`: iterate vertices in insertion order, running a
DFS from each unvisited one. -/
def findConnectedGroups (g : SplitGraph) : List (List String) :=
  (g.foldl (fun (acc : List String × List (List String)) p =>
    if p.1 ∈ acc.1 then acc
    else
      let r := dfsRun g p.1 acc.1
      (r.1, acc.2 ++ [r.2])) ([], [])).2

/-! ### Typed relation maps (`Map` of `Set`s) -/

/-- A typed relation map: insertion-ordered keys, set-valued entries. -/
abbrev RelMap := List (String × List String)

/-- `if (!map.has(k)) map.set(k, new Set())`. -/
def rmEnsure (m : RelMap) (k : String) : RelMap :=
  if (m.find? (fun p => p.1 == k)).isSome then m else m ++ [(k, [])]

/-- `map.get(k).add(v)` (sets ignore duplicates). -/
def rmAdd (m : RelMap) (k v : String) : RelMap :=
  m.map (fun p => if p.1 == k then (p.1, if v ∈ p.2 then p.2 else p.2 ++ [v]) else p)

/-- The four-line pattern used for every special relation type: ensure both
endpoints exist, then add each direction. -/
def rmAddBoth (m : RelMap) (s t : String) : RelMap :=
  rmAdd (rmAdd (rmEnsure (rmEnsure m s) t) s t) t s

/-- `findConnectedGroupsFromRelations`: rebuild a `Graph` from the map in
iteration order and compute its components. -/
def findConnectedGroupsFromRelations (m : RelMap) : List (List String) :=
  findConnectedGroups (m.foldl (fun g p => p.2.foldl (fun g t => addEdge g p.1 t) g) [])

/-! ### First pass of `processSeriesData`: partition relations -/

/-- Accumulated relation maps.  `allRel` mirrors the (never read again)
`allRelations` map keyed by `"src-tgt"`. -/
structure RelMaps where
  graph : SplitGraph := []
  char : RelMap := []
  adapt : RelMap := []
  spin : RelMap := []
  other : RelMap := []
  parent : RelMap := []
  allRel : List (String × SplitRelation) := []

/-- `if (!allRelations.has(key)) allRelations.set(key, relation)`. -/
def arAdd (l : List (String × SplitRelation)) (k : String) (v : SplitRelation) :
    List (String × SplitRelation) :=
  if (l.find? (fun p => p.1 == k)).isSome then l else l ++ [(k, v)]

/-- The first `for (const relation of series.relations)` loop. -/
def buildRelMaps (rels : List SplitRelation) : RelMaps :=
  rels.foldl (fun maps rel =>
    let maps := { maps with
      allRel := arAdd maps.allRel (rel.sourceAnimeId ++ "-" ++ rel.targetAnimeId) rel }
    if rel.relationType = "CHARACTER" then
      { maps with char := rmAddBoth maps.char rel.sourceAnimeId rel.targetAnimeId }
    else if rel.relationType = "ADAPTATION" then
      { maps with adapt := rmAddBoth maps.adapt rel.sourceAnimeId rel.targetAnimeId }
    else if rel.relationType = "SPIN_OFF" then
      { maps with spin := rmAddBoth maps.spin rel.sourceAnimeId rel.targetAnimeId }
    else if rel.relationType = "OTHER" ∨ rel.relationType = "PARENT" then
      let maps := { maps with other := rmAddBoth maps.other rel.sourceAnimeId rel.targetAnimeId }
      if rel.relationType = "PARENT" then
        { maps with parent := rmAddBoth maps.parent rel.sourceAnimeId rel.targetAnimeId }
      else maps
    else
      { maps with graph := addEdge maps.graph rel.sourceAnimeId rel.targetAnimeId }) {}

/-! ### JS `Number` coercion, comparators, and stable sorting -/

/-- Decimal digit-string value. -/
def digitsToNat (l : List Char) : Nat :=
  l.foldl (fun n c => n * 10 + (c.toNat - 48)) 0

/-- Host `Number(s)` restricted to the shapes that occur here: the empty
string coerces to `0`, digit strings to their value, anything else to `NaN`
(`none`).  (Signs, blanks and fractions never occur in anime ids.) -/
def strNum (s : String) : Option Int :=
  if s = "" then some 0
  else if s.data.all Char.isDigit then some (digitsToNat s.data)
  else none

/-- `Number(a) - Number(b)` as a sort comparator value: a `NaN` comparator
result is treated as `0` by `Array.prototype.sort`. -/
def numIdCmp (a b : String) : Ordering :=
  match strNum a, strNum b with
  | some x, some y => compare x y
  | _, _ => .eq

/-- Stable insertion into a sorted list: `x` goes after every `y` with
`le y x`, matching the stability of `Array.prototype.sort`. -/
def insSorted (le : α → α → Bool) (x : α) : List α → List α
  | [] => [x]
  | y :: ys => if le y x then y :: insSorted le x ys else x :: y :: ys

/-- Stable sort by a JS comparator (`le y x` meaning "comparator(y,x) ≤ 0"). -/
def stableSortBy (le : α → α → Bool) : List α → List α
  | [] => []
  | x :: xs => insSorted le x (stableSortBy le xs)

/-- `.sort((a, b) => Number(a) - Number(b))` on id arrays. -/
def sortNumS (l : List String) : List String :=
  stableSortBy (fun a b => numIdCmp a b ≠ .gt) l

/-- `d1 || d2` on comparator values (`0` and `NaN` are falsy; a final `NaN`
acts as `0`). -/
def jsNumOr (d1 d2 : Option Int) : Int :=
  match d1 with
  | some v => if v = 0 then d2.getD 0 else v
  | none => d2.getD 0

/-- `Number(x) - Number(y)` (`none` = `NaN`). -/
def numDiff (x y : String) : Option Int :=
  match strNum x, strNum y with
  | some a, some b => some (a - b)
  | _, _ => none

/-- `.sort((a, b) => Number(a.sourceAnimeId) - Number(b.sourceAnimeId) ||
Number(a.targetAnimeId) - Number(b.targetAnimeId))`. -/
def sortRels (l : List SplitRelation) : List SplitRelation :=
  stableSortBy (fun a b =>
    compare (jsNumOr (numDiff a.sourceAnimeId b.sourceAnimeId)
                     (numDiff a.targetAnimeId b.targetAnimeId)) 0 ≠ .gt) l

/-! ### `getSeriesNameFromOldestAnime` (the NamingResolver) -/

/-- The comparator of `getSeriesNameFromOldestAnime`: release dates when both
present and parseable (`dp` models `new Date`; `none` = invalid date),
otherwise numeric ids. -/
def namingCmp (dp : String → Option Int) (am : String → Option RawRecord)
    (a b : String) : Ordering :=
  match am a, am b with
  | some ra, some rb =>
    if truthy ra.start_date ∧ truthy rb.start_date then
      match dp (ra.start_date.getD ""), dp (rb.start_date.getD "") with
      | some da, some db => compare da db
      | _, _ => numIdCmp a b
    else numIdCmp a b
  | _, _ => numIdCmp a b

/-- `getSeriesNameFromOldestAnime(animeIds, animeMap)`. -/
def getSeriesNameFromOldestAnime (dp : String → Option Int)
    (animeIds : List String) (am : String → Option RawRecord) : String :=
  match animeIds with
  | [] => "Unknown Series"
  | _ =>
    let sortedIds := stableSortBy (fun a b => namingCmp dp am a b ≠ .gt) animeIds
    match sortedIds.head? with
    | none => "Unknown Series"
    | some oldestId =>
      match am oldestId with
      | none => "Series " ++ oldestId
      | some oldest => jsOrD oldest.title_romaji (jsOrD oldest.title ("Series " ++ oldestId))

/-! ### MAIN clusters -/

/-- A MAIN cluster entry. -/
structure MainCluster where
  seriesId : String
  seriesName : String
  originalSeriesId : String
  animeIds : List String
  otherIds : List String
  characterIds : List String
  adaptationIds : List String
  spinOffIds : List String
  relations : List SplitRelation
deriving DecidableEq, Repr

/-- A soft-category cluster entry. -/
structure SoftCluster where
  seriesId : String
  seriesName : String
  originalSeriesId : String
  animeIds : List String
  seriesType : String
  relations : List SplitRelation
deriving DecidableEq, Repr

/-- Scan state of the per-main-group relation collection. -/
structure MainScan where
  otherIds : List String := []
  characterIds : List String := []
  adaptationIds : List String := []
  spinOffIds : List String := []
  uniq : List (String × SplitRelation) := []

/-- `uniqueRelations.set(key, relation)` (`Map.set`: overwrite keeps the
key's position). -/
def urSet (l : List (String × SplitRelation)) (k : String) (v : SplitRelation) :
    List (String × SplitRelation) :=
  if (l.find? (fun p => p.1 == k)).isSome
  then l.map (fun p => if p.1 == k then (k, v) else p)
  else l ++ [(k, v)]

/-- The relation scan for one MAIN component: for every member, every series
relation touching it is classified (external CHARACTER/ADAPTATION/SPIN_OFF
endpoints; internal structural relations deduplicated by
`"src-tgt-type"`; other external endpoints into `otherIds`). -/
def mainScan (series : SplitSeries) (grp : List String) : MainScan :=
  grp.foldl (fun st animeId =>
    series.relations.foldl (fun st rel =>
      if rel.sourceAnimeId = animeId ∨ rel.targetAnimeId = animeId then
        let otherId := if rel.sourceAnimeId = animeId then rel.targetAnimeId
                       else rel.sourceAnimeId
        if rel.relationType = "CHARACTER" then
          if otherId ∈ grp then st
          else { st with characterIds := addId st.characterIds otherId }
        else if rel.relationType = "ADAPTATION" then
          if otherId ∈ grp then st
          else { st with adaptationIds := addId st.adaptationIds otherId }
        else if rel.relationType = "SPIN_OFF" then
          if otherId ∈ grp then st
          else { st with spinOffIds := addId st.spinOffIds otherId }
        else
          if rel.sourceAnimeId ∈ grp ∧ rel.targetAnimeId ∈ grp then
            let key := rel.sourceAnimeId ++ "-" ++ rel.targetAnimeId ++ "-" ++ rel.relationType
            { st with uniq := urSet st.uniq key rel }
          else { st with otherIds := addId st.otherIds otherId }
      else st) st) {}

/-- Build one MAIN cluster from the component at position `idx`. -/
def mkMainCluster (dp : String → Option Int) (am : String → Option RawRecord)
    (series : SplitSeries) (idx : Nat) (grp : List String) : MainCluster :=
  let st := mainScan series grp
  { seriesId := "series_" ++ series.seriesId ++ "_" ++ toString (idx + 1)
  , seriesName := getSeriesNameFromOldestAnime dp grp am
  , originalSeriesId := series.seriesId
  , animeIds := sortNumS grp
  , otherIds := sortNumS st.otherIds
  , characterIds := sortNumS st.characterIds
  , adaptationIds := sortNumS st.adaptationIds
  , spinOffIds := sortNumS st.spinOffIds
  , relations := sortRels (st.uniq.map (·.2)) }

/-! ### Soft-category clusters -/

/-- The relation collection for a soft cluster: for each member, every
series relation of the category with both endpoints inside the filtered
group, deduplicated by `"src-tgt-type"`. -/
def softUniqRelations (series : SplitSeries) (ty : String)
    (filteredGroup : List String) : List (String × SplitRelation) :=
  filteredGroup.foldl (fun uniq _animeId =>
    series.relations.foldl (fun uniq rel =>
      if rel.relationType = ty ∧ rel.sourceAnimeId ∈ filteredGroup ∧
          rel.targetAnimeId ∈ filteredGroup then
        urSet uniq (rel.sourceAnimeId ++ "-" ++ rel.targetAnimeId ++ "-" ++ rel.relationType) rel
      else uniq) uniq) []

/-- `relationType.charAt(0) + relationType.slice(1).toLowerCase()`
(so `"SPIN_OFF"` becomes `"Spin_off"`). -/
def capFirst (ty : String) : String :=
  String.mk (ty.data.take 1) ++ jsToLower (String.mk (ty.data.drop 1))

/-- The per-series `results` object.  `spin_off` models the property that
`processRelationGroups` *creates* when it computes
`"SPIN_OFF".toLowerCase() = "spin_off"` and finds no such key: those
clusters land beside — not in — the pre-initialized `spinOff` array, and
the stage output therefore never contains them. -/
structure SplitResults where
  main : List MainCluster := []
  character : List SoftCluster := []
  adaptation : List SoftCluster := []
  spinOff : List SoftCluster := []
  spin_off : List SoftCluster := []
  other : List SoftCluster := []
  parent : List SoftCluster := []
deriving DecidableEq, Repr

/-- `results[resultKey].push(...)` for the keys `processRelationGroups`
actually computes (`"adaptation"`, `"spin_off"`, `"other"`, `"parent"`). -/
def pushByKey (r : SplitResults) (k : String) (cs : List SoftCluster) : SplitResults :=
  if k = "character" then { r with character := r.character ++ cs }
  else if k = "adaptation" then { r with adaptation := r.adaptation ++ cs }
  else if k = "spin_off" then { r with spin_off := r.spin_off ++ cs }
  else if k = "other" then { r with other := r.other ++ cs }
  else if k = "parent" then { r with parent := r.parent ++ cs }
  else r

/-- The character-relation group loop of `processSeriesData` (component
index counts skipped singletons too; members already claimed by a MAIN
cluster are filtered out; groups smaller than 2 after filtering are
dropped). -/
def charClusters (dp : String → Option Int) (am : String → Option RawRecord)
    (series : SplitSeries) (mains : List MainCluster)
    (groups : List (List String)) : List SoftCluster :=
  groups.enum.filterMap (fun p =>
    let mainAnimeIds := mains.flatMap (·.animeIds)
    let filteredGroup := p.2.filter (fun id => decide (id ∉ mainAnimeIds))
    if filteredGroup.length < 2 then none
    else
      let uniq := softUniqRelations series "CHARACTER" filteredGroup
      let seriesName := getSeriesNameFromOldestAnime dp filteredGroup am
      some { seriesId := "character_" ++ series.seriesId ++ "_" ++ toString (p.1 + 1)
           , seriesName := seriesName ++ " (Character)"
           , originalSeriesId := series.seriesId
           , animeIds := sortNumS filteredGroup
           , seriesType := "CHARACTER"
           , relations := sortRels (uniq.map (·.2)) })

/-- `processRelationGroups(groups, relationType, series, results, animeMap)`. -/
def processRelationGroups (dp : String → Option Int) (am : String → Option RawRecord)
    (groups : List (List String)) (relationType : String)
    (series : SplitSeries) (results : SplitResults) : SplitResults :=
  let resultKey := jsToLower relationType
  let mainAnimeIds := results.main.flatMap (·.animeIds)
  let newClusters := groups.enum.filterMap (fun p =>
    let filteredGroup := p.2.filter (fun id => decide (id ∉ mainAnimeIds))
    if filteredGroup.length < 2 then none
    else
      let uniq := softUniqRelations series relationType filteredGroup
      let seriesName := getSeriesNameFromOldestAnime dp filteredGroup am
      some { seriesId := resultKey ++ "_" ++ series.seriesId ++ "_" ++ toString (p.1 + 1)
           , seriesName := seriesName ++ " (" ++ capFirst relationType ++ ")"
           , originalSeriesId := series.seriesId
           , animeIds := sortNumS filteredGroup
           , seriesType := relationType
           , relations := sortRels (uniq.map (·.2)) })
  pushByKey results resultKey newClusters

/-- The MAIN clusters: one per connected component of the structural graph
(no size filter). -/
def splitMains (dp : String → Option Int) (am : String → Option RawRecord)
    (series : SplitSeries) : List MainCluster :=
  (findConnectedGroups (buildRelMaps series.relations).graph).enum.map
    (fun p => mkMainCluster dp am series p.1 p.2)

/-- The per-series results after the MAIN and CHARACTER loops of
`processSeriesData`. -/
def splitStage0 (dp : String → Option Int) (am : String → Option RawRecord)
    (series : SplitSeries) : SplitResults :=
  { main := splitMains dp am series
  , character := charClusters dp am series (splitMains dp am series)
      (findConnectedGroupsFromRelations (buildRelMaps series.relations).char) }

/-- `processSeriesData(series, animeMap)`: partition the relations, build a
MAIN cluster per structural component, then the soft-category clusters
(the JS function computes the relation maps once; the repeated
`buildRelMaps` subterms here denote that same shared value). -/
def processSeriesData (dp : String → Option Int) (am : String → Option RawRecord)
    (series : SplitSeries) : SplitResults :=
  processRelationGroups dp am
    (findConnectedGroupsFromRelations (buildRelMaps series.relations).parent) "PARENT" series
    (processRelationGroups dp am
      (findConnectedGroupsFromRelations (buildRelMaps series.relations).other) "OTHER" series
      (processRelationGroups dp am
        (findConnectedGroupsFromRelations (buildRelMaps series.relations).spin) "SPIN_OFF" series
        (processRelationGroups dp am
          (findConnectedGroupsFromRelations (buildRelMaps series.relations).adapt) "ADAPTATION" series
          (splitStage0 dp am series))))

/-- The stage output (`advanced_split_series.json`): concatenation over all
series of the six pre-initialized result arrays (so nothing from the
dynamically created `spin_off` key). -/
structure SplitOutput where
  main : List MainCluster := []
  character : List SoftCluster := []
  adaptation : List SoftCluster := []
  spinOff : List SoftCluster := []
  other : List SoftCluster := []
  parent : List SoftCluster := []
deriving DecidableEq, Repr

/-- The `for` loop of `advancedSeriesSplit` over all series documents. -/
def advancedSeriesSplitRun (dp : String → Option Int)
    (seriesList : List SplitSeries) (am : String → Option RawRecord) : SplitOutput :=
  seriesList.foldl (fun out s =>
    let r := processSeriesData dp am s
    { main := out.main ++ r.main
    , character := out.character ++ r.character
    , adaptation := out.adaptation ++ r.adaptation
    , spinOff := out.spinOff ++ r.spinOff
    , other := out.other ++ r.other
    , parent := out.parent ++ r.parent }) {}

/-- Grouping followed by splitting on the same input records (the splitter's
`animeMap` comes from the raw data file, its series list from the grouper's
output document). -/
def pipelineRun (jp : String → JsonParseResult) (dp : String → Option Int)
    (oracle : Nat → String) (records : List RawRecord) :
    GroupResult × SplitOutput :=
  let g := groupAnimeIntoSeries_internal jp oracle records
  (g, advancedSeriesSplitRun dp (g.series.map toSplitSeries) (rawMapOf records))

/-! ## Structural lemmas about the grouping fold -/

/-- Concrete stand-ins for the host functions, used by concrete runs. -/
def jpThrows : String → JsonParseResult := fun _ => .throws

/-- A stand-in for ``series_${Date.now()}_${Math.floor(Math.random()*1000)}``. -/
def oracleFresh : Nat → String := fun n => "series_1700000000000_" ++ toString n

theorem memberRelStep_animeIds (aid : String) (g : SeriesGroup) (rel : RelObj) :
    (memberRelStep aid g rel).animeIds = g.animeIds := rfl

theorem memberRelFold_animeIds (aid : String) (rels : List RelObj) (g : SeriesGroup) :
    (rels.foldl (memberRelStep aid) g).animeIds = g.animeIds := by
  induction rels generalizing g with
  | nil => rfl
  | cons rel rels ih => rw [List.foldl_cons, ih, memberRelStep_animeIds]

theorem memberStep_fst_animeIds (sid : String) (p : SeriesGroup × List (String × String))
    (a : NormRecord) : (memberStep sid p a).1.animeIds = p.1.animeIds := by
  unfold memberStep
  dsimp only
  rw [memberRelFold_animeIds]

theorem memberFold_fst_animeIds (sid : String) (details : List NormRecord) :
    ∀ p : SeriesGroup × List (String × String),
      (details.foldl (memberStep sid) p).1.animeIds = p.1.animeIds := by
  induction details with
  | nil => intro p; rfl
  | cons a details ih =>
    intro p
    rw [List.foldl_cons, ih, memberStep_fst_animeIds]

theorem memberFold_snd (sid : String) (details : List NormRecord) :
    ∀ p : SeriesGroup × List (String × String),
      (details.foldl (memberStep sid) p).2 =
        details.foldl (fun m2 (a : NormRecord) => (a.id, sid) :: m2) p.2 := by
  induction details with
  | nil => intro p; rfl
  | cons a details ih =>
    intro p
    rw [List.foldl_cons, List.foldl_cons, ih]
    rfl

theorem alook_isSome_cons {β : Type} (m : List (String × β)) (k k' : String) (v : β)
    (h : (alook m k).isSome) : (alook ((k', v) :: m) k).isSome := by
  unfold alook
  split
  · rfl
  · exact h

theorem alook_prependFold_isSome (sid : String) (details : List NormRecord) :
    ∀ (m2 : List (String × String)) (k : String), (alook m2 k).isSome →
      (alook (details.foldl (fun m2 (a : NormRecord) => (a.id, sid) :: m2) m2) k).isSome := by
  induction details with
  | nil => intro m2 k h; exact h
  | cons a details ih =>
    intro m2 k h
    rw [List.foldl_cons]
    exact ih _ k (alook_isSome_cons m2 k a.id sid h)

theorem alook_prependFold_mem (sid : String) (details : List NormRecord) :
    ∀ (m2 : List (String × String)) (k : String), (∃ a ∈ details, a.id = k) →
      (alook (details.foldl (fun m2 (a : NormRecord) => (a.id, sid) :: m2) m2) k).isSome := by
  induction details with
  | nil => intro m2 k h; obtain ⟨a, ha, _⟩ := h; simp at ha
  | cons a details ih =>
    intro m2 k h
    rw [List.foldl_cons]
    obtain ⟨b, hb, hbk⟩ := h
    rcases List.mem_cons.mp hb with hba | hbrest
    · subst hba
      apply alook_prependFold_isSome
      unfold alook
      rw [if_pos hbk]
      rfl
    · exact ih _ k ⟨b, hbrest, hbk⟩

/-! ## C2: the partition invariant -/

/-- Any id shared between the member lists of two groups has no record of
its own (it occurs only as a relation target). -/
def SharedIdRecordless (m : String → Option NormRecord) (g₁ g₂ : SeriesGroup) : Prop :=
  ∀ id, id ∈ g₁.animeIds → id ∈ g₂.animeIds → m id = none

/-- Loop invariant of the grouping fold: the groups built so far overlap only
on record-less ids, and every member with a record is registered in
`animeToSeries`. -/
structure GroupInv (m : String → Option NormRecord) (st : GroupState) : Prop where
  pairwise : st.series.Pairwise (SharedIdRecordless m)
  registered : ∀ g ∈ st.series, ∀ id ∈ g.animeIds, (m id).isSome →
    (alook st.animeToSeries id).isSome

theorem groupInv_finalize {m : String → Option NormRecord}
    (hm : ∀ id a, m id = some a → a.id = id)
    (st : GroupState) (h : GroupInv m st)
    (relatedIds : List String) (g0 : SeriesGroup) (sid : String)
    (hg0 : g0.animeIds = relatedIds)
    (hconf : relatedIds.filter (fun id => (alook st.animeToSeries id).isSome) = [])
    (sids procIds : List String) :
    GroupInv m { st with
      series := st.series ++
        [((relatedIds.filterMap m).foldl (memberStep sid) (g0, st.animeToSeries)).1]
      , seriesIds := sids
      , animeToSeries :=
          ((relatedIds.filterMap m).foldl (memberStep sid) (g0, st.animeToSeries)).2
      , processedIds := procIds } := by
  set details := relatedIds.filterMap m with hdetails
  set built := details.foldl (memberStep sid) (g0, st.animeToSeries) with hbuilt
  have hids : built.1.animeIds = relatedIds := by
    rw [hbuilt, memberFold_fst_animeIds]; exact hg0
  have hsnd : built.2 =
      details.foldl (fun m2 (a : NormRecord) => (a.id, sid) :: m2) st.animeToSeries := by
    rw [hbuilt, memberFold_snd]
  have hnoone : ∀ id ∈ relatedIds, ¬ (alook st.animeToSeries id).isSome := by
    intro id hid hsome
    have hall := List.filter_eq_nil_iff.mp hconf id hid
    exact hall (by simpa using hsome)
  have hreg_new : ∀ id ∈ relatedIds, (m id).isSome → (alook built.2 id).isSome := by
    intro id hid hms
    rw [hsnd]
    obtain ⟨a, ha⟩ := Option.isSome_iff_exists.mp hms
    exact alook_prependFold_mem sid details st.animeToSeries id
      ⟨a, List.mem_filterMap.mpr ⟨id, hid, ha⟩, hm id a ha⟩
  have hreg_old : ∀ k, (alook st.animeToSeries k).isSome → (alook built.2 k).isSome := by
    intro k hk
    rw [hsnd]
    exact alook_prependFold_isSome sid details st.animeToSeries k hk
  constructor
  · rw [List.pairwise_append]
    refine ⟨h.pairwise, by simp, ?_⟩
    intro g1 hg1 g2 hg2
    have hg2' : g2 = built.1 := by simpa using hg2
    subst hg2'
    intro id hid1 hid2
    rw [hids] at hid2
    cases hmi : m id with
    | none => rfl
    | some a =>
      exact absurd (h.registered g1 hg1 id hid1 (by rw [hmi]; rfl)) (hnoone id hid2)
  · intro g hg id hid hms
    rcases List.mem_append.mp hg with hgold | hgnew
    · exact hreg_old id (h.registered g hgold id hid hms)
    · have : g = built.1 := by simpa using hgnew
      subst this
      rw [hids] at hid
      exact hreg_new id hid hms

theorem processRecord_inv {m : String → Option NormRecord}
    (hm : ∀ id a, m id = some a → a.id = id)
    (fuel : Nat) (oracle : Nat → String) (st : GroupState) (r : NormRecord)
    (h : GroupInv m st) : GroupInv m (processRecord m fuel oracle st r) := by
  unfold processRecord
  split
  · exact h
  · split
    · exact ⟨h.pairwise, h.registered⟩
    · dsimp only
      split
      · exact ⟨h.pairwise, h.registered⟩
      · split
        · exact ⟨h.pairwise, h.registered⟩
        · rename_i hne
          have hconf : ((findAllRelatedIds m fuel r.id).processed).filter
              (fun id => (alook st.animeToSeries id).isSome) = [] := by
            by_contra hcontra
            exact hne hcontra
          refine groupInv_finalize hm
            { st with warnLog := st.warnLog ++ (findAllRelatedIds m fuel r.id).warns }
            ⟨h.pairwise, h.registered⟩ _ _ _ ?_ ?_ _ _
          · rfl
          · exact hconf

theorem groupInv_foldl {m : String → Option NormRecord}
    (hm : ∀ id a, m id = some a → a.id = id)
    (fuel : Nat) (oracle : Nat → String) :
    ∀ (l : List NormRecord) (st : GroupState), GroupInv m st →
      GroupInv m (l.foldl (processRecord m fuel oracle) st) := by
  intro l
  induction l with
  | nil => intro st h; exact h
  | cons r l ih =>
    intro st h
    rw [List.foldl_cons]
    exact ih _ (processRecord_inv hm fuel oracle st r h)

/-- Two records each pointing at the non-existent id `"9"`. -/
def c2records : List RawRecord :=
  [ { id := "1", title := some "Alpha", relations := .arr [.obj { targetAnimeId := some "9" }] },
    { id := "2", title := some "Beta", relations := .arr [.obj { targetAnimeId := some "9" }] } ]

/-- C2, counterexample: the member lists of the two finalized groups are not
disjoint — the record-less id `"9"` (a relation target with no record of its
own) is a member of both.  The run produces groups with `animeIds`
`["1","9"]` and `["2","9"]`. -/
theorem c2_counterexample :
    ¬ ((groupAnimeIntoSeries_internal jpThrows oracleFresh c2records).series.Pairwise
        (fun g₁ g₂ => ∀ id ∈ g₁.animeIds, id ∉ g₂.animeIds)) ∧
    ((groupAnimeIntoSeries_internal jpThrows oracleFresh c2records).series.map (·.animeIds))
      = [["1", "9"], ["2", "9"]] := by
  constructor
  · decide
  · decide

/-- C2 (amended): the member-id sets of the finalized series groups of one
run are pairwise disjoint *on ids that have a record*: any id shared between
two distinct emitted groups has no record of its own (`animeMapOf` of the
normalized input yields `none`; such phantom ids occur only as relation
targets).  Conflict detection registers every record-backed member in
`animeToSeries`, so a later closure containing one is vetoed. -/
theorem c2_record_backed_membership_is_disjoint (jp : String → JsonParseResult)
    (oracle : Nat → String) (records : List RawRecord) :
    ((groupAnimeIntoSeries_internal jp oracle records).series).Pairwise
      (SharedIdRecordless (animeMapOf (normalizePass jp records))) := by
  have hm : ∀ id a, animeMapOf (normalizePass jp records) id = some a → a.id = id :=
    fun id a h => (animeMapOf_id_eq h).1
  have hinit : GroupInv (animeMapOf (normalizePass jp records)) {} :=
    ⟨List.Pairwise.nil, by intro g hg; simp [GroupState.series] at hg⟩
  exact (groupInv_foldl hm (stdFuel (normalizePass jp records)) oracle
    (normalizePass jp records) {} hinit).pairwise

/-! ## C3: the conflict veto -/

theorem mem_addId_self (P : List String) (x : String) : x ∈ addId P x := by
  unfold addId
  split
  · assumption
  · exact List.mem_append_right _ (by simp)

theorem mem_addId_of_mem (P : List String) (x id : String) (h : id ∈ P) :
    id ∈ addId P x := by
  unfold addId
  split
  · exact h
  · exact List.mem_append_left _ h

theorem mem_foldl_addId_of_mem (l : List String) :
    ∀ (P : List String) (id : String), id ∈ P → id ∈ l.foldl addId P := by
  induction l with
  | nil => intro P id h; exact h
  | cons x l ih =>
    intro P id h
    rw [List.foldl_cons]
    exact ih _ id (mem_addId_of_mem P x id h)

theorem mem_foldl_addId (l : List String) :
    ∀ (P : List String) (id : String), id ∈ l → id ∈ l.foldl addId P := by
  induction l with
  | nil => intro P id h; simp at h
  | cons x l ih =>
    intro P id h
    rw [List.foldl_cons]
    rcases List.mem_cons.mp h with h' | h'
    · subst h'
      exact mem_foldl_addId_of_mem l _ id (mem_addId_self P id)
    · exact ih _ id h'

/-- C3: when the closure of an unvisited record with relations (and a
non-singleton closure) contains a member already registered to a finalized
group, the step creates no group (`series` unchanged), appends exactly one
multi-membership entry per conflicting member — each referencing the
member's existing group and the placeholder proposed-new-series reference
(see `mkMulti`) — and marks every closure member visited. -/
theorem c3_conflict_veto (m : String → Option NormRecord) (fuel : Nat)
    (oracle : Nat → String) (st : GroupState) (anime : NormRecord)
    (h1 : anime.id ∉ st.processedIds)
    (h2 : ¬ anime.relations.length = 0)
    (h3 : ¬ (findAllRelatedIds m fuel anime.id).processed.length = 1)
    (h4 : (findAllRelatedIds m fuel anime.id).processed.filter
        (fun id => (alook st.animeToSeries id).isSome) ≠ []) :
    (processRecord m fuel oracle st anime).series = st.series ∧
    (processRecord m fuel oracle st anime).multis = st.multis ++
      ((findAllRelatedIds m fuel anime.id).processed.filter
        (fun id => (alook st.animeToSeries id).isSome)).map
        (mkMulti m st.animeToSeries) ∧
    ∀ id ∈ (findAllRelatedIds m fuel anime.id).processed,
      id ∈ (processRecord m fuel oracle st anime).processedIds := by
  unfold processRecord
  rw [if_neg h1, if_neg h2]
  dsimp only
  rw [if_neg h3, if_pos h4]
  refine ⟨rfl, rfl, ?_⟩
  intro id hid
  exact mem_foldl_addId _ _ id hid

/-- Raw records for the conflict scenario: `1 ↔ 2` form a group, then `3`
has an edge reaching `2`. -/
def c3records : List RawRecord :=
  [ { id := "1", title := some "Alpha",
      relations := .arr [.obj { targetAnimeId := some "2", relationType := some "SEQUEL" }] },
    { id := "2", title := some "Beta",
      relations := .arr [.obj { targetAnimeId := some "1" }] },
    { id := "3", title := some "Gamma",
      relations := .arr [.obj { targetAnimeId := some "2" }] } ]

/-- Normalized form of `c3records`. -/
def c3norm : List NormRecord := normalizePass jpThrows c3records

/-- The third record (`3`), in normalized form. -/
def c3recC : NormRecord :=
  normalizeRecord jpThrows
    { id := "3", title := some "Gamma",
      relations := .arr [.obj { targetAnimeId := some "2" }] }

/-- The grouping state after records `1` and `2` have been processed
(one finalized group containing `1` and `2`). -/
def c3stMid : GroupState :=
  (c3norm.take 2).foldl
    (processRecord (animeMapOf c3norm) (stdFuel c3norm) oracleFresh) {}

/-- C3, witness: applying the veto theorem to record `3` of the concrete
mid-run state: its closure `["3","2","1"]` conflicts on `2` and `1`, so no
new group appears, entries for both conflicting members (referencing the
existing group `"alpha"`) are emitted, and all closure members are marked
visited. -/
theorem c3_conflict_veto_witness :
    ("3" ∉ c3stMid.processedIds) ∧
    (¬ c3recC.relations.length = 0) ∧
    (¬ (findAllRelatedIds (animeMapOf c3norm) (stdFuel c3norm) "3").processed.length = 1) ∧
    ((findAllRelatedIds (animeMapOf c3norm) (stdFuel c3norm) "3").processed.filter
        (fun id => (alook c3stMid.animeToSeries id).isSome) ≠ []) ∧
    ((processRecord (animeMapOf c3norm) (stdFuel c3norm) oracleFresh c3stMid
        c3recC).series
      = c3stMid.series ∧
     (processRecord (animeMapOf c3norm) (stdFuel c3norm) oracleFresh c3stMid
        c3recC).multis
      = c3stMid.multis ++
        ((findAllRelatedIds (animeMapOf c3norm) (stdFuel c3norm) "3").processed.filter
          (fun id => (alook c3stMid.animeToSeries id).isSome)).map
          (mkMulti (animeMapOf c3norm) c3stMid.animeToSeries) ∧
     ∀ id ∈ (findAllRelatedIds (animeMapOf c3norm) (stdFuel c3norm) "3").processed,
       id ∈ (processRecord (animeMapOf c3norm) (stdFuel c3norm) oracleFresh c3stMid
        c3recC).processedIds) :=
  ⟨by decide, by decide, by decide, by decide,
   c3_conflict_veto (animeMapOf c3norm) (stdFuel c3norm) oracleFresh c3stMid
     c3recC (by decide) (by decide) (by decide) (by decide)⟩

/-! ## C4/C5: soft-cluster size and exclusivity -/

theorem mem_insSorted {α : Type} (le : α → α → Bool) (x : α) :
    ∀ (l : List α) (y : α), y ∈ insSorted le x l ↔ y = x ∨ y ∈ l := by
  intro l
  induction l with
  | nil => intro y; simp [insSorted]
  | cons z l ih =>
    intro y
    unfold insSorted
    split
    · rw [List.mem_cons, ih y, List.mem_cons]
      tauto
    · simp [List.mem_cons]

theorem length_insSorted {α : Type} (le : α → α → Bool) (x : α) :
    ∀ l : List α, (insSorted le x l).length = l.length + 1 := by
  intro l
  induction l with
  | nil => rfl
  | cons z l ih =>
    unfold insSorted
    split
    · simp [ih]
    · simp

theorem mem_stableSortBy {α : Type} (le : α → α → Bool) :
    ∀ (l : List α) (y : α), y ∈ stableSortBy le l ↔ y ∈ l := by
  intro l
  induction l with
  | nil => intro y; rfl
  | cons x l ih =>
    intro y
    unfold stableSortBy
    rw [mem_insSorted, ih, List.mem_cons]

theorem length_stableSortBy {α : Type} (le : α → α → Bool) :
    ∀ l : List α, (stableSortBy le l).length = l.length := by
  intro l
  induction l with
  | nil => rfl
  | cons x l ih =>
    unfold stableSortBy
    rw [length_insSorted, ih, List.length_cons]

theorem mem_sortNumS (l : List String) (y : String) : y ∈ sortNumS l ↔ y ∈ l :=
  mem_stableSortBy _ l y

theorem length_sortNumS (l : List String) : (sortNumS l).length = l.length :=
  length_stableSortBy _ l

/-- All soft-category clusters of a per-series result, including the
mis-keyed `spin_off` list. -/
def softClustersOf (r : SplitResults) : List SoftCluster :=
  r.character ++ r.adaptation ++ r.spinOff ++ r.spin_off ++ r.other ++ r.parent

theorem pushByKey_main (r : SplitResults) (k : String) (cs : List SoftCluster) :
    (pushByKey r k cs).main = r.main := by
  unfold pushByKey
  split_ifs <;> rfl

theorem softClustersOf_pushByKey (r : SplitResults) (k : String)
    (cs : List SoftCluster) (c : SoftCluster)
    (h : c ∈ softClustersOf (pushByKey r k cs)) :
    c ∈ softClustersOf r ∨ c ∈ cs := by
  unfold pushByKey at h
  split_ifs at h <;>
    (unfold softClustersOf at h ⊢; simp only [List.mem_append] at h ⊢; tauto)

/-- The shape of every cluster produced by the soft-cluster loops: a
connected component filtered against the MAIN member ids, kept only when at
least two members survive, with sorted member list, named by the
NamingResolver over the filtered members plus a category suffix. -/
def IsFilteredGroupCluster (dp : String → Option Int) (am : String → Option RawRecord)
    (mains : List MainCluster) (c : SoftCluster) : Prop :=
  ∃ fg : List String, 2 ≤ fg.length ∧
    (∀ id ∈ fg, id ∉ mains.flatMap (·.animeIds)) ∧
    c.animeIds = sortNumS fg ∧
    c.seriesName = getSeriesNameFromOldestAnime dp fg am ++ " (" ++ capFirst c.seriesType ++ ")"

theorem charClusters_spec (dp : String → Option Int) (am : String → Option RawRecord)
    (series : SplitSeries) (mains : List MainCluster) (groups : List (List String))
    (c : SoftCluster) (h : c ∈ charClusters dp am series mains groups) :
    IsFilteredGroupCluster dp am mains c := by
  unfold charClusters at h
  obtain ⟨p, _, hp⟩ := List.mem_filterMap.mp h
  dsimp only at hp
  split at hp
  · exact absurd hp (by simp)
  · rename_i hlen
    refine ⟨p.2.filter (fun id => decide (id ∉ mains.flatMap (·.animeIds))), ?_, ?_, ?_, ?_⟩
    · omega
    · intro id hid
      have := List.mem_filter.mp hid
      simpa using this.2
    · have := Option.some.inj hp
      rw [← this]
    · have := Option.some.inj hp
      rw [← this]
      show getSeriesNameFromOldestAnime dp _ am ++ " (Character)" = _
      have hsuf : (" (Character)" : String) = " (" ++ (capFirst "CHARACTER" ++ ")") := by
        decide
      rw [hsuf, ← String.append_assoc, ← String.append_assoc]

theorem processRelationGroups_main (dp : String → Option Int)
    (am : String → Option RawRecord) (groups : List (List String))
    (relationType : String) (series : SplitSeries) (results : SplitResults) :
    (processRelationGroups dp am groups relationType series results).main
      = results.main := by
  unfold processRelationGroups
  exact pushByKey_main _ _ _

theorem processRelationGroups_soft_spec (dp : String → Option Int)
    (am : String → Option RawRecord) (groups : List (List String))
    (relationType : String) (series : SplitSeries) (results : SplitResults)
    (c : SoftCluster)
    (h : c ∈ softClustersOf (processRelationGroups dp am groups relationType series results)) :
    c ∈ softClustersOf results ∨ IsFilteredGroupCluster dp am results.main c := by
  unfold processRelationGroups at h
  rcases softClustersOf_pushByKey _ _ _ _ h with h' | h'
  · exact Or.inl h'
  · right
    obtain ⟨p, _, hp⟩ := List.mem_filterMap.mp h'
    dsimp only at hp
    split at hp
    · exact absurd hp (by simp)
    · rename_i hlen
      refine ⟨p.2.filter (fun id => decide (id ∉ results.main.flatMap (·.animeIds))), ?_, ?_, ?_, ?_⟩
      · omega
      · intro id hid
        have := List.mem_filter.mp hid
        simpa using this.2
      · have := Option.some.inj hp
        rw [← this]
      · have := Option.some.inj hp
        rw [← this]

theorem processSeriesData_main_eq (dp : String → Option Int)
    (am : String → Option RawRecord) (series : SplitSeries) :
    (processSeriesData dp am series).main = splitMains dp am series := by
  unfold processSeriesData
  rw [processRelationGroups_main, processRelationGroups_main,
    processRelationGroups_main, processRelationGroups_main]
  rfl

theorem prG_preserves (dp : String → Option Int) (am : String → Option RawRecord)
    (groups : List (List String)) (relationType : String) (series : SplitSeries)
    (results : SplitResults)
    (hall : ∀ c ∈ softClustersOf results, IsFilteredGroupCluster dp am results.main c) :
    ∀ c ∈ softClustersOf (processRelationGroups dp am groups relationType series results),
      IsFilteredGroupCluster dp am
        (processRelationGroups dp am groups relationType series results).main c := by
  intro c hc
  rw [processRelationGroups_main]
  rcases processRelationGroups_soft_spec dp am groups relationType series results c hc
    with h | h
  · exact hall c h
  · exact h

theorem splitStage0_spec (dp : String → Option Int) (am : String → Option RawRecord)
    (series : SplitSeries) :
    ∀ c ∈ softClustersOf (splitStage0 dp am series),
      IsFilteredGroupCluster dp am (splitStage0 dp am series).main c := by
  intro c hc
  have hc' : c ∈ charClusters dp am series (splitMains dp am series)
      (findConnectedGroupsFromRelations (buildRelMaps series.relations).char) := by
    simpa [splitStage0, softClustersOf] using hc
  exact charClusters_spec dp am series _ _ c hc'

theorem processSeriesData_soft_spec (dp : String → Option Int)
    (am : String → Option RawRecord) (series : SplitSeries) (c : SoftCluster)
    (h : c ∈ softClustersOf (processSeriesData dp am series)) :
    IsFilteredGroupCluster dp am (processSeriesData dp am series).main c :=
  prG_preserves _ _ _ _ _ _
    (prG_preserves _ _ _ _ _ _
      (prG_preserves _ _ _ _ _ _
        (prG_preserves _ _ _ _ _ _
          (splitStage0_spec dp am series)))) c h

/-- No-date stand-in for `new Date` and an empty anime map. -/
def dpNone : String → Option Int := fun _ => none

/-- Empty splitter anime map (names fall back to ids). -/
def amNone : String → Option RawRecord := fun _ => none

/-- Records whose grouping produces a series with a structural self-loop
(`1 -> 1 SEQUEL`) plus character edges to `2`. -/
def c4records : List RawRecord :=
  [ { id := "1", title := some "Loop", relations := .arr
        [ .obj { targetAnimeId := some "1", relationType := some "SEQUEL" },
          .obj { targetAnimeId := some "2", relationType := some "CHARACTER" } ] },
    { id := "2", title := some "Side", relations := .arr
        [ .obj { targetAnimeId := some "1", relationType := some "CHARACTER" } ] } ]

/-- Splitting the grouper's output for `c4records`. -/
def c4output : SplitOutput :=
  advancedSeriesSplitRun dpNone
    ((groupAnimeIntoSeries_internal jpThrows oracleFresh c4records).series.map toSplitSeries)
    (rawMapOf c4records)

/-- C4, counterexample: a grouper-produced series whose only structural edge
is the self-loop `1 -> 1` yields an emitted MAIN cluster with a single
member `["1"]` — the splitter applies no size filter to MAIN components, so
"no cluster of size < 2 is ever emitted" fails. -/
theorem c4_counterexample :
    (c4output.main.map (·.animeIds) = [["1"]]) ∧
    ¬ (∀ c ∈ c4output.main, 2 ≤ c.animeIds.length) := by
  constructor
  · decide
  · decide

/-- C4 (amended): every *soft-category* cluster emitted by
`processSeriesData` (CHARACTER, ADAPTATION, SPIN_OFF, OTHER, PARENT) has at
least two member ids — the `filteredGroup.length < 2` guard.  MAIN clusters
carry no such guarantee (a structural self-loop yields a singleton). -/
theorem c4_soft_clusters_have_at_least_two_members (dp : String → Option Int)
    (am : String → Option RawRecord) (series : SplitSeries) (c : SoftCluster)
    (h : c ∈ softClustersOf (processSeriesData dp am series)) :
    2 ≤ c.animeIds.length := by
  obtain ⟨fg, hlen, _, heq, _⟩ := processSeriesData_soft_spec dp am series c h
  rw [heq, length_sortNumS]
  exact hlen

/-- Three ids linked only by ADAPTATION edges. -/
def c4series : SplitSeries :=
  { seriesId := "g4", relations := [⟨"1", "2", "ADAPTATION"⟩, ⟨"2", "3", "ADAPTATION"⟩] }

/-- The single ADAPTATION cluster produced for `c4series`. -/
def c4softc : SoftCluster :=
  (processSeriesData dpNone amNone c4series).adaptation.getD 0 ⟨"", "", "", [], "", []⟩

/-- C4, witness: the concrete ADAPTATION cluster `{1,2,3}` is a soft cluster
of its series result and indeed has at least two members. -/
theorem c4_soft_clusters_witness :
    (c4softc ∈ softClustersOf (processSeriesData dpNone amNone c4series)) ∧
    2 ≤ c4softc.animeIds.length :=
  ⟨by decide,
   c4_soft_clusters_have_at_least_two_members dpNone amNone c4series c4softc (by decide)⟩

/-- C5: soft-cluster exclusivity — an id appearing in any soft-category
cluster of a series result never appears in any MAIN cluster of the same
result (soft components are filtered against the MAIN member ids). -/
theorem c5_main_soft_exclusive (dp : String → Option Int)
    (am : String → Option RawRecord) (series : SplitSeries) (c : SoftCluster)
    (hc : c ∈ softClustersOf (processSeriesData dp am series))
    (id : String) (hid : id ∈ c.animeIds)
    (mc : MainCluster) (hmc : mc ∈ (processSeriesData dp am series).main) :
    id ∉ mc.animeIds := by
  obtain ⟨fg, _, hfilter, heq, _⟩ := processSeriesData_soft_spec dp am series c hc
  rw [heq, mem_sortNumS] at hid
  intro hmem
  exact hfilter id hid (List.mem_flatMap.mpr ⟨mc, hmc, hmem⟩)

/-- A series with a structural component `{1,2}` and a character pair
`{3,4}`. -/
def c5series : SplitSeries :=
  { seriesId := "g5", relations := [⟨"1", "2", "SEQUEL"⟩, ⟨"3", "4", "CHARACTER"⟩] }

/-- The CHARACTER cluster `{3,4}` of `c5series`. -/
def c5softc : SoftCluster :=
  (processSeriesData dpNone amNone c5series).character.getD 0 ⟨"", "", "", [], "", []⟩

/-- The MAIN cluster `{1,2}` of `c5series`. -/
def c5mainc : MainCluster :=
  (processSeriesData dpNone amNone c5series).main.getD 0 ⟨"", "", "", [], [], [], [], [], []⟩

/-- C5, witness: member `"3"` of the concrete CHARACTER cluster is not a
member of the concrete MAIN cluster of the same series result. -/
theorem c5_main_soft_exclusive_witness :
    (c5softc ∈ softClustersOf (processSeriesData dpNone amNone c5series)) ∧
    ("3" ∈ c5softc.animeIds) ∧
    (c5mainc ∈ (processSeriesData dpNone amNone c5series).main) ∧
    ("3" ∉ c5mainc.animeIds) :=
  ⟨by decide, by decide, by decide,
   c5_main_soft_exclusive dpNone amNone c5series c5softc (by decide) "3" (by decide)
     c5mainc (by decide)⟩

/-! ## C6: determinism of grouping plus splitting -/

theorem filterMap_head_of_head? {α β : Type} {f : α → Option β} {l : List α}
    {x : α} {b : β} (hh : l.head? = some x) (hf : f x = some b) :
    (l.filterMap f).head? = some b := by
  cases l with
  | nil => simp at hh
  | cons y t =>
    have hyx : y = x := by simpa using hh
    subst hyx
    rw [List.filterMap_cons, hf]
    rfl

theorem generateSeriesId_fresh_irrelevant {details : List NormRecord}
    {a : NormRecord} (hh : details.head? = some a) (ht : truthy a.title)
    (f1 f2 : String) (existing : List String) :
    generateSeriesId f1 details existing = generateSeriesId f2 details existing := by
  unfold generateSeriesId
  rw [hh]
  dsimp only
  rw [if_pos ht, if_pos ht]

theorem processRecord_oracle_irrelevant (jp : String → JsonParseResult)
    (records : List RawRecord) (htitle : ∀ r ∈ records, truthy r.title)
    (o1 o2 : Nat → String) (st : GroupState) (r : NormRecord)
    (hr : r ∈ normalizePass jp records) :
    processRecord (animeMapOf (normalizePass jp records))
        (stdFuel (normalizePass jp records)) o1 st r =
      processRecord (animeMapOf (normalizePass jp records))
        (stdFuel (normalizePass jp records)) o2 st r := by
  set nr := normalizePass jp records with hnr
  set m := animeMapOf nr with hm
  set fuel := stdFuel nr with hfuel
  unfold processRecord
  split
  · rfl
  · split
    · rfl
    · dsimp only
      split
      · rfl
      · split
        · rfl
        · have hsome : (m r.id).isSome := animeMapOf_isSome_of_mem hr
          obtain ⟨a0, ha0⟩ := Option.isSome_iff_exists.mp hsome
          have hhead : (findAllRelatedIds m fuel r.id).processed.head? = some r.id := by
            apply findAllRelatedIds_head
            rw [hfuel]
            unfold stdFuel
            omega
          have hdet : ((findAllRelatedIds m fuel r.id).processed.filterMap m).head?
              = some a0 := filterMap_head_of_head? hhead ha0
          have ht : truthy a0.title := by
            obtain ⟨_, hmem⟩ := animeMapOf_id_eq ha0
            rw [hnr] at hmem
            obtain ⟨r', hr', hr'eq⟩ := List.mem_map.mp hmem
            have : a0.title = r'.title := by rw [← hr'eq]; rfl
            rw [this]
            exact htitle r' hr'
          have hgen := generateSeriesId_fresh_irrelevant hdet ht
            (o1 st.series.length) (o2 st.series.length) st.seriesIds
          rw [hgen]

theorem foldl_processRecord_oracle_irrelevant (jp : String → JsonParseResult)
    (records : List RawRecord) (htitle : ∀ r ∈ records, truthy r.title)
    (o1 o2 : Nat → String) :
    ∀ (l : List NormRecord), (∀ r ∈ l, r ∈ normalizePass jp records) →
      ∀ st : GroupState,
      l.foldl (processRecord (animeMapOf (normalizePass jp records))
        (stdFuel (normalizePass jp records)) o1) st =
      l.foldl (processRecord (animeMapOf (normalizePass jp records))
        (stdFuel (normalizePass jp records)) o2) st := by
  intro l
  induction l with
  | nil => intro _ st; rfl
  | cons r l ih =>
    intro hsub st
    rw [List.foldl_cons, List.foldl_cons,
      processRecord_oracle_irrelevant jp records htitle o1 o2 st r
        (hsub r (List.mem_cons_self _ _))]
    exact ih (fun x hx => hsub x (List.mem_cons_of_mem _ hx)) _

theorem groupAnime_oracle_irrelevant (jp : String → JsonParseResult)
    (records : List RawRecord) (htitle : ∀ r ∈ records, truthy r.title)
    (o1 o2 : Nat → String) :
    groupAnimeIntoSeries_internal jp o1 records =
      groupAnimeIntoSeries_internal jp o2 records := by
  unfold groupAnimeIntoSeries_internal
  have hfold := foldl_processRecord_oracle_irrelevant jp records htitle o1 o2
    (normalizePass jp records) (fun r hr => hr) {}
  dsimp only
  rw [hfold]

/-- C6 (amended): grouping plus splitting is a deterministic function of the
input record sequence *provided every record has a truthy title*: the host
nondeterminism (`Date.now`/`Math.random`, modelled by `oracle`) is consulted
only by `generateSeriesId`'s fallback for a title-less first group member,
so under the proviso two runs with different oracles produce identical
groups, edge-case reports, and split clusters. -/
theorem c6_deterministic_when_titles_present (jp : String → JsonParseResult)
    (dp : String → Option Int) (o1 o2 : Nat → String) (records : List RawRecord)
    (htitle : ∀ r ∈ records, truthy r.title) :
    pipelineRun jp dp o1 records = pipelineRun jp dp o2 records := by
  unfold pipelineRun
  rw [groupAnime_oracle_irrelevant jp records htitle o1 o2]

/-- A title-less record heading a group: the series id falls back to the
host `Date.now`/`Math.random` value. -/
def c6records : List RawRecord :=
  [ { id := "1", relations := .arr [.obj { targetAnimeId := some "2" }] },
    { id := "2", title := some "B", relations := .arr [.obj { targetAnimeId := some "1" }] } ]

/-- C6, counterexample: two runs of grouping + splitting on the same record
sequence with different host values produce different outputs (the group id
is `series_<timestamp>_<random>`), refuting unconditional bit-for-bit
determinism. -/
theorem c6_counterexample :
    pipelineRun jpThrows dpNone (fun _ => "series_1111_1") c6records ≠
      pipelineRun jpThrows dpNone (fun _ => "series_2222_2") c6records ∧
    ((pipelineRun jpThrows dpNone (fun _ => "series_1111_1") c6records).1.series.map
      (·.seriesId)) = ["series_1111_1"] := by
  constructor
  · decide
  · decide

/-- Titled records for the determinism witness. -/
def c6titled : List RawRecord :=
  [ { id := "1", title := some "Alpha", relations := .arr [.obj { targetAnimeId := some "2" }] },
    { id := "2", title := some "B", relations := .arr [.obj { targetAnimeId := some "1" }] } ]

/-- C6, witness: on fully titled records, two runs with different host
oracles coincide. -/
theorem c6_deterministic_witness :
    (∀ r ∈ c6titled, truthy r.title) ∧
    pipelineRun jpThrows dpNone (fun _ => "series_1111_1") c6titled =
      pipelineRun jpThrows dpNone (fun _ => "series_2222_2") c6titled :=
  ⟨by decide,
   c6_deterministic_when_titles_present jpThrows dpNone
     (fun _ => "series_1111_1") (fun _ => "series_2222_2") c6titled (by decide)⟩

/-! ## C7: circular relations are logged but never reported -/

theorem processRecord_circs (m : String → Option NormRecord) (fuel : Nat)
    (oracle : Nat → String) (st : GroupState) (r : NormRecord) :
    (processRecord m fuel oracle st r).circs = st.circs := by
  unfold processRecord
  split
  · rfl
  · split
    · rfl
    · dsimp only
      split
      · rfl
      · split
        · rfl
        · rfl

theorem foldl_processRecord_circs (m : String → Option NormRecord) (fuel : Nat)
    (oracle : Nat → String) :
    ∀ (l : List NormRecord) (st : GroupState),
      (l.foldl (processRecord m fuel oracle) st).circs = st.circs := by
  intro l
  induction l with
  | nil => intro st; rfl
  | cons r l ih =>
    intro st
    rw [List.foldl_cons, ih, processRecord_circs]

/-- Two records forming a relation cycle `1 -> 2 -> 1`. -/
def c7records : List RawRecord :=
  [ { id := "1", title := some "Alpha",
      relations := .arr [.obj { targetAnimeId := some "2", relationType := some "SEQUEL" }] },
    { id := "2", title := some "Beta",
      relations := .arr [.obj { targetAnimeId := some "1", relationType := some "PREQUEL" }] } ]

/-- C7: the traversal *detects* circular relations, producing a log warning
(`warnLog`), and grouping is unaffected — but the emitted `EdgeCases`
report's `circularRelations` list is empty on *every* input, because no code
path ever appends to it (its `push` was never written, despite the code's
own "handled later in the edge cases" comment).  First conjunct: the report
is always empty; then the concrete cycle: warning emitted, report empty,
group `{1,2}` formed normally. -/
theorem c7_circular_detected_but_never_reported :
    (∀ (jp : String → JsonParseResult) (oracle : Nat → String)
       (records : List RawRecord),
      (groupAnimeIntoSeries_internal jp oracle records).edgeCases.circularRelations = []) ∧
    ((groupAnimeIntoSeries_internal jpThrows oracleFresh c7records).warnLog = [["1", "1"]]) ∧
    ((groupAnimeIntoSeries_internal jpThrows oracleFresh c7records).edgeCases.circularRelations
      = []) ∧
    ((groupAnimeIntoSeries_internal jpThrows oracleFresh c7records).series.map (·.animeIds)
      = [["1", "2"]]) := by
  refine ⟨?_, by decide, by decide, by decide⟩
  intro jp oracle records
  unfold groupAnimeIntoSeries_internal
  dsimp only
  rw [foldl_processRecord_circs]

/-! ## C8: relation-type tags are taken verbatim, not upper-cased -/

/-- ASCII upper-casing (what the claimed `toUpperCase` normalization would
produce). -/
def jsToUpper (s : String) : String :=
  String.mk (s.data.map Char.toUpper)

/-- Modelled from the spec as amended: the canonical tag of an accepted
relation element is the source tag *verbatim* — `"UNKNOWN"` for a bare id,
`relationType` (or `"UNKNOWN"`) for a node wrapper, `relationType` or
`type` (or `"UNKNOWN"`) for an id-shaped object — and an element already
carrying `targetAnimeId` passes through with its tag field unchanged
(possibly absent).  No case conversion anywhere. -/
def specCanonicalTag : RawRel → Option String
  | .prim _ => some "UNKNOWN"
  | .obj o =>
    if truthy o.nodeId then some (jsOrD o.relationType "UNKNOWN")
    else if truthy o.id ∧ ¬ truthy o.targetAnimeId then
      some (jsOrD o.relationType (jsOrD o.type "UNKNOWN"))
    else o.relationType

/-- C8, counterexample: a lower-case input tag `"sequel"` survives
normalization in lower case; the canonical edge's `relationType` is *not*
the upper-cased form `"SEQUEL"` the claim requires. -/
theorem c8_counterexample :
    jsToUpper "sequel" = "SEQUEL" ∧
    (normalizeRel (.obj { id := some "2", relationType := some "sequel" })).relationType
      = some "sequel" ∧
    (normalizeRel (.obj { id := some "2", relationType := some "sequel" })).relationType
      ≠ some (jsToUpper "sequel") := by
  refine ⟨by decide, by decide, by decide⟩

/-- C8 (amended): for every raw relation element, the canonical edge's
`relationType` equals the source tag verbatim with an `"UNKNOWN"` default
(per `specCanonicalTag`); the normalizer performs no case conversion. -/
theorem c8_tags_verbatim_with_unknown_default (r : RawRel) :
    (normalizeRel r).relationType = specCanonicalTag r := by
  cases r with
  | prim s => rfl
  | obj o =>
    unfold normalizeRel specCanonicalTag
    dsimp only
    split_ifs <;> rfl

/-! ## C10: the grouping stage rewrites every record's relations in place -/

/-- A host parser that parses `"[5]"` to the single bare id `5`. -/
def c10jp : String → JsonParseResult :=
  fun s => if s = "[5]" then .array [.prim "5"] else .throws

/-- One record whose raw `relations` field is a JSON string. -/
def c10records : List RawRecord :=
  [ { id := "1", title := some "A", relations := .str "[5]" } ]

/-- C10: after a grouping run, every caller-visible record's `relations`
field holds exactly the normalized edge-object array of its raw value
(JSON strings parsed, bare ids and nested shapes rewritten, malformed or
missing values replaced by `[]`) — the raw representation is gone.  The
concrete conjunct shows a JSON-string field turned into edge objects. -/
theorem c10_relations_overwritten_with_normalized_edges :
    (∀ (jp : String → JsonParseResult) (oracle : Nat → String)
       (records : List RawRecord),
      ((groupAnimeIntoSeries_internal jp oracle records).recordsAfterRun.map (·.relations))
        = records.map (fun r => normalizeRelations jp r.relations)) ∧
    ((groupAnimeIntoSeries_internal c10jp oracleFresh c10records).recordsAfterRun.map
        (·.relations)
      = [[{ targetAnimeId := some "5", id := none, relationType := some "UNKNOWN",
            type := none, nodeId := none }]]) := by
  refine ⟨?_, by decide⟩
  intro jp oracle records
  unfold groupAnimeIntoSeries_internal
  dsimp only
  unfold normalizePass
  rw [List.map_map, List.map_map]
  apply List.map_congr_left
  intro r _
  dsimp only [Function.comp]
  cases alook ((List.map (normalizeRecord jp) records).foldl
      (processRecord (animeMapOf (List.map (normalizeRecord jp) records))
        (stdFuel (List.map (normalizeRecord jp) records)) oracle) {}).animeToSeries
      (normalizeRecord jp r).id with
  | none => rfl
  | some sid => rfl

/-! ## C9: representative names -/

theorem memberRelStep_seriesName (aid : String) (g : SeriesGroup) (rel : RelObj) :
    (memberRelStep aid g rel).seriesName = g.seriesName := rfl

theorem memberRelFold_seriesName (aid : String) (rels : List RelObj) (g : SeriesGroup) :
    (rels.foldl (memberRelStep aid) g).seriesName = g.seriesName := by
  induction rels generalizing g with
  | nil => rfl
  | cons rel rels ih => rw [List.foldl_cons, ih, memberRelStep_seriesName]

theorem memberStep_fst_seriesName (sid : String) (p : SeriesGroup × List (String × String))
    (a : NormRecord) : (memberStep sid p a).1.seriesName = p.1.seriesName := by
  unfold memberStep
  dsimp only
  rw [memberRelFold_seriesName]

theorem memberFold_fst_seriesName (sid : String) (details : List NormRecord) :
    ∀ p : SeriesGroup × List (String × String),
      (details.foldl (memberStep sid) p).1.seriesName = p.1.seriesName := by
  induction details with
  | nil => intro p; rfl
  | cons a details ih =>
    intro p
    rw [List.foldl_cons, ih, memberStep_fst_seriesName]

/-- The grouper's actual naming rule: the series name is derived from the
first closure member that has a record — its plain `title` when truthy,
otherwise the placeholder `"Series n"`.  (The NamingResolver is *not*
involved.) -/
def GrouperNameSpec (m : String → Option NormRecord) (g : SeriesGroup) : Prop :=
  ∃ (a : NormRecord) (n : Nat), (g.animeIds.filterMap m).head? = some a ∧
    g.seriesName = if truthy a.title then a.title.getD "" else "Series " ++ toString n

theorem processRecord_nameInv (m : String → Option NormRecord) (fuel : Nat)
    (oracle : Nat → String) (st : GroupState) (r : NormRecord)
    (hfuel : 1 ≤ fuel) (hr : (m r.id).isSome)
    (h : ∀ g ∈ st.series, GrouperNameSpec m g) :
    ∀ g ∈ (processRecord m fuel oracle st r).series, GrouperNameSpec m g := by
  unfold processRecord
  split
  · exact h
  · split
    · exact h
    · dsimp only
      split
      · exact h
      · split
        · exact h
        · intro g hg
          rcases List.mem_append.mp hg with hold | hnew
          · exact h g hold
          · have hgeq : g = _ := List.mem_singleton.mp hnew
            obtain ⟨a0, ha0⟩ := Option.isSome_iff_exists.mp hr
            have hhead : (findAllRelatedIds m fuel r.id).processed.head? = some r.id :=
              findAllRelatedIds_head m fuel r.id hfuel
            have hdet : ((findAllRelatedIds m fuel r.id).processed.filterMap m).head?
                = some a0 := filterMap_head_of_head? hhead ha0
            refine ⟨a0, st.series.length + 1, ?_, ?_⟩
            · rw [hgeq, memberFold_fst_animeIds]
              exact hdet
            · rw [hgeq, memberFold_fst_seriesName]
              show (match ((findAllRelatedIds m fuel r.id).processed.filterMap m).head? with
                | some a => if truthy a.title then a.title.getD ""
                            else "Series " ++ toString (st.series.length + 1)
                | none => "Series " ++ toString (st.series.length + 1)) = _
              rw [hdet]

theorem foldl_processRecord_nameInv (m : String → Option NormRecord) (fuel : Nat)
    (oracle : Nat → String) (hfuel : 1 ≤ fuel) :
    ∀ (l : List NormRecord), (∀ r ∈ l, (m r.id).isSome) →
    ∀ (st : GroupState), (∀ g ∈ st.series, GrouperNameSpec m g) →
      ∀ g ∈ (l.foldl (processRecord m fuel oracle) st).series, GrouperNameSpec m g := by
  intro l
  induction l with
  | nil => intro _ st h; exact h
  | cons r l ih =>
    intro hsub st h
    rw [List.foldl_cons]
    exact ih (fun x hx => hsub x (List.mem_cons_of_mem _ hx)) _
      (processRecord_nameInv m fuel oracle st r hfuel
        (hsub r (List.mem_cons_self _ _)) h)

/-- C9 (amended), all three naming rules in force in the code:
(A) a SeriesGrouper group's name is the plain `title` of the first closure
member having a record (placeholder `"Series n"` on a falsy title) — not
the NamingResolver result;
(B) each MAIN cluster's name is the NamingResolver
(`getSeriesNameFromOldestAnime`) over its (pre-sort) component;
(C) each soft-category cluster's name is the NamingResolver over its
filtered member set followed by the capitalized category suffix. -/
theorem c9_naming_rules :
    (∀ (jp : String → JsonParseResult) (oracle : Nat → String)
       (records : List RawRecord) (g : SeriesGroup),
       g ∈ (groupAnimeIntoSeries_internal jp oracle records).series →
       ∃ (a : NormRecord) (n : Nat),
         (g.animeIds.filterMap (animeMapOf (normalizePass jp records))).head? = some a ∧
         g.seriesName = if truthy a.title then a.title.getD ""
                        else "Series " ++ toString n) ∧
    (∀ (dp : String → Option Int) (am : String → Option RawRecord)
       (series : SplitSeries) (c : MainCluster),
       c ∈ (processSeriesData dp am series).main →
       ∃ grp, c.seriesName = getSeriesNameFromOldestAnime dp grp am ∧
         c.animeIds = sortNumS grp) ∧
    (∀ (dp : String → Option Int) (am : String → Option RawRecord)
       (series : SplitSeries) (c : SoftCluster),
       c ∈ softClustersOf (processSeriesData dp am series) →
       ∃ grp, c.seriesName = getSeriesNameFromOldestAnime dp grp am ++ " (" ++
           capFirst c.seriesType ++ ")" ∧
         c.animeIds = sortNumS grp) := by
  refine ⟨?_, ?_, ?_⟩
  · intro jp oracle records g hg
    have hfuel : 1 ≤ stdFuel (normalizePass jp records) := by
      unfold stdFuel; omega
    have hsub : ∀ r ∈ normalizePass jp records,
        ((animeMapOf (normalizePass jp records)) r.id).isSome :=
      fun r hr => animeMapOf_isSome_of_mem hr
    exact foldl_processRecord_nameInv (animeMapOf (normalizePass jp records))
      (stdFuel (normalizePass jp records)) oracle hfuel
      (normalizePass jp records) hsub {} (by intro g' hg'; simp [GroupState.series] at hg')
      g hg
  · intro dp am series c hc
    rw [processSeriesData_main_eq] at hc
    obtain ⟨p, _, hp⟩ := List.mem_map.mp hc
    exact ⟨p.2, by rw [← hp]; exact ⟨rfl, rfl⟩⟩
  · intro dp am series c hc
    obtain ⟨fg, _, _, heq, hname⟩ := processSeriesData_soft_spec dp am series c hc
    exact ⟨fg, hname, heq⟩

/-- Input order puts record `2` first, so the grouper names the group after
record `2`'s plain title, while the NamingResolver would pick record `1`'s
romanized title. -/
def c9records : List RawRecord :=
  [ { id := "2", title := some "Beta", title_romaji := some "BetaRom",
      relations := .arr [.obj { targetAnimeId := some "1" }] },
    { id := "1", title := some "Alpha", title_romaji := some "AlphaRom",
      relations := .arr [.obj { targetAnimeId := some "2" }] } ]

/-- The single group produced for `c9records`. -/
def c9group : SeriesGroup :=
  (groupAnimeIntoSeries_internal jpThrows oracleFresh c9records).series.getD 0
    ⟨"", "", [], [], [], []⟩

/-- C9, counterexample: the emitted SeriesGrouper group is named `"Beta"`
(the first member's plain title), but the NamingResolver over the same
member set yields `"AlphaRom"` — so the grouper's representative name is
not the NamingResolver result. -/
theorem c9_counterexample :
    (c9group ∈ (groupAnimeIntoSeries_internal jpThrows oracleFresh c9records).series) ∧
    c9group.seriesName = "Beta" ∧
    getSeriesNameFromOldestAnime dpNone c9group.animeIds (rawMapOf c9records)
      = "AlphaRom" ∧
    ("Beta" : String) ≠ "AlphaRom" := by
  refine ⟨by decide, by decide, by decide, by decide⟩

/-- Concrete series for the C9 witness: a structural pair and a parent pair. -/
def c9series : SplitSeries :=
  { seriesId := "g9", relations := [⟨"1", "2", "SEQUEL"⟩, ⟨"3", "4", "PARENT"⟩] }

/-- The MAIN cluster of `c9series`. -/
def c9mainc : MainCluster :=
  (processSeriesData dpNone amNone c9series).main.getD 0
    ⟨"", "", "", [], [], [], [], [], []⟩

/-- The PARENT cluster of `c9series`. -/
def c9softc : SoftCluster :=
  (processSeriesData dpNone amNone c9series).parent.getD 0 ⟨"", "", "", [], "", []⟩

/-- C9, witness: the three naming rules applied at concrete inputs — the
concrete grouper group of `c9records`, and the concrete MAIN and PARENT
clusters of `c9series`. -/
theorem c9_naming_rules_witness :
    (∃ (a : NormRecord) (n : Nat), (c9group.animeIds.filterMap
        (animeMapOf (normalizePass jpThrows c9records))).head? = some a ∧
      c9group.seriesName = if truthy a.title then a.title.getD ""
                           else "Series " ++ toString n) ∧
    (∃ grp, c9mainc.seriesName = getSeriesNameFromOldestAnime dpNone grp amNone ∧
      c9mainc.animeIds = sortNumS grp) ∧
    (∃ grp, c9softc.seriesName = getSeriesNameFromOldestAnime dpNone grp amNone ++ " (" ++
        capFirst c9softc.seriesType ++ ")" ∧
      c9softc.animeIds = sortNumS grp) :=
  ⟨c9_naming_rules.1 jpThrows oracleFresh c9records c9group (by decide),
   c9_naming_rules.2.1 dpNone amNone c9series c9mainc (by decide),
   c9_naming_rules.2.2 dpNone amNone c9series c9softc (by decide)⟩

end Harmoni
